import Mathlib

/-!
Rotational velocidensity buffer (`src/rvb.go`)

A shallow embedding of the ring buffer of `src/rvb.go` and proofs about it.

Modelling conventions.

* Go `int` values are Lean `Int`s.  The counters of the buffer would need more
  than `2^63` pushes to leave the 64-bit range, so the methods are given without
  wrap-around; they agree with the code as long as no intermediate value leaves
  the 64-bit range, which is the case for counts `n`, `skip` that are not
  negative and checkpoints taken from the buffer itself.  Where a statement
  ranges over every checkpoint, the method is given a second time with the
  wrap-around of 64-bit arithmetic (`wrapInt64`, `NewItemsSince64`).
* A Go slice is a `List`; an index outside the slice, a remainder by zero and a
  `make` with a negative length are run-time faults, modelled as `none`.
* Go `%` is the truncated remainder, `Int.tmod`.
* `make([]E, n)` fills the slice with the zero value of `E`, here `default`.
* The `sync.RWMutex` serialises the operations; each operation is modelled as
  one atomic function of the state.
* A `for i := 0; i < m; i++` loop is a function that is structurally recursive
  on the number of iterations left and re-tests the loop condition on every
  round; running out of rounds with the condition still true is `none`.
-/

namespace Rvb

variable {E : Type}

/-! ## Data model -/

/-- Snapshot of the write cursor (`type Checkpoint struct`). -/
structure Checkpoint where
  rotation : Int
  pos : Int
deriving DecidableEq, Repr

/-- Ring buffer (`type RVBuffer[E any] struct`), without the mutex. -/
structure RVBuffer (E : Type) where
  buffer : List E
  size : Int
  currentPos : Int
  currentSize : Int
  currentRotation : Int
deriving DecidableEq, Repr

/-- Report of a checkpoint read (`type Missing struct`). -/
structure Missing where
  Reused : Int
  Max : Int
deriving DecidableEq, Repr

/-! ## Go primitives -/

/-- Slice read `s[i]`; faults outside `0 ≤ i < len(s)`. -/
def sliceGet (s : List E) (i : Int) : Option E :=
  if 0 ≤ i then s[i.toNat]? else none

/-- Slice write `s[i] = x`; faults outside `0 ≤ i < len(s)`. -/
def sliceSet (s : List E) (i : Int) (x : E) : Option (List E) :=
  if 0 ≤ i ∧ i < (s.length : Int) then some (s.set i.toNat x) else none

/-- Go `a % b`: truncated remainder; faults for `b = 0`. -/
def goRem (a b : Int) : Option Int :=
  if b = 0 then none else some (Int.tmod a b)

/-- Go `make([]E, n)`: `n` zero values; faults for `n < 0`. -/
def makeSlice [Inhabited E] (n : Int) : Option (List E) :=
  if n < 0 then none else some (List.replicate n.toNat default)

/-! ## Operations -/

/-- Constructor `NewBuffer(size)`. -/
def NewBuffer [Inhabited E] (size : Int) : Option (RVBuffer E) := do
  let buffer ← makeSlice size
  some { buffer := buffer, size := size, currentPos := 0, currentSize := 0, currentRotation := 0 }

/-- Method `GetCurrentSIze()`. -/
def GetCurrentSIze (b : RVBuffer E) : Int :=
  b.currentSize

/-- Method `Push(item)`. -/
def Push (b : RVBuffer E) (item : E) : Option (RVBuffer E) := do
  let buffer ← sliceSet b.buffer b.currentPos item
  let currentSize := min b.size (max (b.currentPos + 1) b.currentSize)
  let currentRotation := if b.currentPos + 1 ≥ b.size then b.currentRotation + 1 else b.currentRotation
  let currentPos ← goRem (b.currentPos + 1) b.size
  some { buffer := buffer, size := b.size, currentPos := currentPos, currentSize := currentSize,
         currentRotation := currentRotation }

/-- Method `PushMany(items)`: the loop of the source, with its own copy of the body. -/
def PushMany (b : RVBuffer E) : List E → Option (RVBuffer E)
  | [] => some b
  | item :: items => do
    let buffer ← sliceSet b.buffer b.currentPos item
    let currentSize := min b.size (max (b.currentPos + 1) b.currentSize)
    let currentRotation := if b.currentPos + 1 ≥ b.size then b.currentRotation + 1 else b.currentRotation
    let currentPos ← goRem (b.currentPos + 1) b.size
    PushMany { buffer := buffer, size := b.size, currentPos := currentPos, currentSize := currentSize,
               currentRotation := currentRotation } items

/-- Loop of `ReadNew`: `for i := 0; i < min(n, b.currentSize); i++`. -/
def readNewLoop (b : RVBuffer E) (n : Int) : Nat → Nat → List E → Option (List E)
  | 0, i, out => if (i : Int) < min n b.currentSize then none else some out
  | fuel + 1, i, out =>
    if (i : Int) < min n b.currentSize then do
      let idx ← goRem (b.currentSize + b.currentPos - 1 - i) b.currentSize
      let x ← sliceGet b.buffer idx
      let out ← sliceSet out i x
      readNewLoop b n fuel (i + 1) out
    else some out

/-- Method `ReadNew(n)`. -/
def ReadNew [Inhabited E] (b : RVBuffer E) (n : Int) : Option (List E) := do
  let out ← makeSlice (min n b.currentSize)
  readNewLoop b n (min n b.currentSize).toNat 0 out

/-- Loop of `ReadOld`: `for i := 0; i < min(n, b.currentSize); i++`. -/
def readOldLoop (b : RVBuffer E) (n : Int) : Nat → Nat → List E → Option (List E)
  | 0, i, out => if (i : Int) < min n b.currentSize then none else some out
  | fuel + 1, i, out =>
    if (i : Int) < min n b.currentSize then do
      let idx ← goRem (b.currentPos + i) b.currentSize
      let x ← sliceGet b.buffer idx
      let out ← sliceSet out i x
      readOldLoop b n fuel (i + 1) out
    else some out

/-- Method `ReadOld(n)`. -/
def ReadOld [Inhabited E] (b : RVBuffer E) (n : Int) : Option (List E) := do
  let out ← makeSlice (min n b.currentSize)
  readOldLoop b n (min n b.currentSize).toNat 0 out

/-- Method `GetCheckpoint()`. -/
def GetCheckpoint (b : RVBuffer E) : Checkpoint :=
  { pos := b.currentPos, rotation := b.currentRotation }

/-- Method `NewItemsSince(checkpoint)`. -/
def NewItemsSince (b : RVBuffer E) (checkpoint : Checkpoint) : Int :=
  let currentAbs := b.currentRotation * b.size + b.currentPos
  let checkpointAbs := checkpoint.rotation * b.size + checkpoint.pos
  if checkpointAbs > currentAbs then 0 else currentAbs - checkpointAbs

/-- Loop of `ReadNewFromCheckpoint`: `for i := 0; i < itemsToRead; i++`, carrying `out` and
`reusedCount`. -/
def readCheckpointLoop (b : RVBuffer E) (startReadAbs oldestValidAbs itemsToRead : Int) :
    Nat → Nat → List E → Int → Option (List E × Int)
  | 0, i, out, reusedCount => if (i : Int) < itemsToRead then none else some (out, reusedCount)
  | fuel + 1, i, out, reusedCount =>
    if (i : Int) < itemsToRead then
      let targetAbs := startReadAbs - i
      if targetAbs < oldestValidAbs then
        readCheckpointLoop b startReadAbs oldestValidAbs itemsToRead fuel (i + 1) out (reusedCount + 1)
      else do
        let bufferIdx ← goRem targetAbs b.size
        let x ← sliceGet b.buffer bufferIdx
        readCheckpointLoop b startReadAbs oldestValidAbs itemsToRead fuel (i + 1) (out ++ [x]) reusedCount
    else some (out, reusedCount)

/-- Method `ReadNewFromCheckpoint(checkpoint, skip, n)`.  `make([]E, 0, itemsToRead)` faults for a
negative capacity. -/
def ReadNewFromCheckpoint (b : RVBuffer E) (checkpoint : Checkpoint) (skip n : Int) :
    Option (List E × Missing) :=
  let currentAbs := b.currentRotation * b.size + b.currentPos
  let checkpointAbs := checkpoint.rotation * b.size + checkpoint.pos
  let availableAtCheckpoint := if checkpoint.rotation = 0 then checkpoint.pos else b.size
  let oldestValidAbs := currentAbs - b.currentSize
  let startReadAbs := checkpointAbs - 1 - skip
  let effectiveAvailable := max 0 (availableAtCheckpoint - skip)
  let itemsToRead := min n effectiveAvailable
  if itemsToRead < 0 then none
  else do
    let (out, reusedCount) ←
      readCheckpointLoop b startReadAbs oldestValidAbs itemsToRead itemsToRead.toNat 0 [] 0
    some (out, { Reused := reusedCount, Max := itemsToRead })

/-! ## Traces of pushes -/

/-- One call of a producer: `Push(item)` or `PushMany(items)`. -/
inductive Op (E : Type) where
  | push (item : E)
  | pushMany (items : List E)

/-- The items a call pushes, in order. -/
def Op.items : Op E → List E
  | .push item => [item]
  | .pushMany items => items

/-- Run one producer call. -/
def applyOp (b : RVBuffer E) : Op E → Option (RVBuffer E)
  | .push item => Push b item
  | .pushMany items => PushMany b items

/-- Run a sequence of producer calls, left to right. -/
def runOps (b : RVBuffer E) : List (Op E) → Option (RVBuffer E)
  | [] => some b
  | op :: ops => (applyOp b op).bind fun b2 => runOps b2 ops

/-- All items pushed by a sequence of producer calls, oldest first. -/
def pushedItems (ops : List (Op E)) : List E :=
  ops.flatMap Op.items

/-- Call `Push` on each item in order. -/
def pushEach (b : RVBuffer E) : List E → Option (RVBuffer E)
  | [] => some b
  | item :: items => (Push b item).bind fun b2 => pushEach b2 items


/-- Sequence number of the next write: `currentRotation * size + currentPos`. -/
def absSeq (b : RVBuffer E) : Int :=
  b.currentRotation * b.size + b.currentPos

/-- The state `b` is what `xs` pushed into a fresh buffer of capacity `S` leaves behind: the
cursors count the pushes and every slot written during the last `S` pushes holds its item. -/
structure Tracks (S : Nat) (xs : List E) (b : RVBuffer E) : Prop where
  size_eq : b.size = (S : Int)
  len_eq : b.buffer.length = S
  pos_eq : b.currentPos = ((xs.length % S : Nat) : Int)
  rot_eq : b.currentRotation = ((xs.length / S : Nat) : Int)
  csize_eq : b.currentSize = ((min xs.length S : Nat) : Int)
  slot : ∀ j, j < xs.length → xs.length ≤ j + S → b.buffer[j % S]? = xs[j]?

/-- Cursor invariant of a buffer state of positive capacity. -/
def Valid (b : RVBuffer E) : Prop :=
  0 < b.size ∧ (b.buffer.length : Int) = b.size ∧
  0 ≤ b.currentPos ∧ b.currentPos < b.size ∧
  0 ≤ b.currentSize ∧ b.currentSize ≤ b.size ∧ 0 ≤ b.currentRotation ∧
  (b.currentRotation = 0 → b.currentSize = b.currentPos) ∧
  (1 ≤ b.currentRotation → b.currentSize = b.size)

/-- Shape shared by the loops of `ReadNew` and `ReadOld`: store `f i` in `out[i]` for
`i = 0 .. m-1`. -/
def fillLoop (f : Nat → Option E) (m : Int) : Nat → Nat → List E → Option (List E)
  | 0, i, out => if (i : Int) < m then none else some out
  | fuel + 1, i, out =>
    if (i : Int) < m then
      (f i).bind fun x => (sliceSet out i x).bind fun out2 => fillLoop f m (fuel) (i + 1) out2
    else some out

/-- Item with sequence number `j` of the pushed sequence `xs` (`x_j`), if there is one. -/
def nthPushed (xs : List E) (j : Int) : Option E :=
  if 0 ≤ j then xs[j.toNat]? else none

/-- Spec value of `Max`: `min(n, max(0, min(k,S) - skip))`. -/
def specMax (S k skip n : Int) : Int :=
  min n (max 0 (min k S - skip))

/-- Spec value of the oldest retained sequence number: `t - min(t,S)`. -/
def specOldest (S t : Int) : Int :=
  t - min t S

/-- Sequence numbers a checkpoint read asks for, newest first:
`k-1-skip, k-2-skip, ..., k-skip-M`. -/
def requestedSeqs (k skip M : Int) : List Int :=
  (List.range M.toNat).map fun (i : Nat) => k - 1 - skip - (i : Int)

/-- Example state: capacity 3 after the five pushes `1, 2, 3, 4, 5`. -/
def exampleWrapped : RVBuffer Int :=
  { buffer := [4, 5, 3], size := 3, currentPos := 2, currentSize := 3, currentRotation := 1 }

/-! ## Read-only methods at the level of memory

The five read-only methods once more, statement by statement, over a memory of arrays.  A slice
is the address of its backing array; `make` and a growing `append` allocate a new array at the
next free address.  The receiver is the struct as stored: the address of `buffer`, the four
integer fields and the read-lock count of `mtx`. -/

/-- A call of one of the read-only methods, with its arguments. -/
inductive ReadCall where
  | readNew (n : Int)
  | readOld (n : Int)
  | readNewFromCheckpoint (checkpoint : Checkpoint) (skip n : Int)
  | getCheckpoint
  | newItemsSince (checkpoint : Checkpoint)

/-- The value a read-only call returns. -/
inductive ReadResult (E : Type) where
  | items (out : List E)
  | itemsMissing (out : List E) (missing : Missing)
  | checkpoint (cp : Checkpoint)
  | count (k : Int)

/-- The struct `RVBuffer[E]` as stored in memory: `buffer` is the address of the backing array,
`readers` the number of read locks held on `mtx`. -/
structure Receiver where
  buffer : Nat
  size : Int
  currentPos : Int
  currentSize : Int
  currentRotation : Int
  readers : Nat
deriving DecidableEq, Repr

/-- The buffer state (storage and cursors) that a receiver stands for in memory `h`. -/
def view (h : List (List E)) (r : Receiver) : Option (RVBuffer E) :=
  (h[r.buffer]?).map fun arr =>
    { buffer := arr, size := r.size, currentPos := r.currentPos, currentSize := r.currentSize,
      currentRotation := r.currentRotation }

/-- Go `make([]E, n)` or `make([]E, 0, n)`: a new array of `n` zero values at the next free
address; faults for `n < 0`. -/
def memMake [Inhabited E] (h : List (List E)) (n : Int) : Option (List (List E) × Nat) :=
  if n < 0 then none else some (h ++ [List.replicate n.toNat default], h.length)

/-- Read `s[i]` of the slice at address `a`. -/
def memGet (h : List (List E)) (a : Nat) (i : Int) : Option E :=
  (h[a]?).bind fun arr => sliceGet arr i

/-- Write `s[i] = x` to the slice at address `a`. -/
def memSet (h : List (List E)) (a : Nat) (i : Int) (x : E) : Option (List (List E)) :=
  (h[a]?).bind fun arr => (sliceSet arr i x).map fun arr2 => h.set a arr2

/-- Go `append(s, x)` for the slice of length `len` at address `a`: in place while the capacity
lasts, otherwise into a new array; returns the memory and the address of the result. -/
def memAppend (h : List (List E)) (a len : Nat) (x : E) : Option (List (List E) × Nat) :=
  (h[a]?).bind fun arr =>
    if len < arr.length then some (h.set a (arr.set len x), a)
    else some (h ++ [arr.take len ++ [x]], h.length)

/-- Lock `b.mtx.RLock()`, with no writer active. -/
def rLock (r : Receiver) : Receiver :=
  { r with readers := r.readers + 1 }

/-- Unlock `b.mtx.RUnlock()`; faults when no read lock is held. -/
def rUnlock (r : Receiver) : Option Receiver :=
  if r.readers = 0 then none else some { r with readers := r.readers - 1 }

/-- Loop of `ReadNew` over memory; `out` is the address of the result slice. -/
def readNewLoopMem (r : Receiver) (n : Int) (out : Nat) :
    Nat → Nat → List (List E) → Option (List (List E))
  | 0, i, h => if (i : Int) < min n r.currentSize then none else some h
  | fuel + 1, i, h =>
    if (i : Int) < min n r.currentSize then
      (goRem (r.currentSize + r.currentPos - 1 - i) r.currentSize).bind fun idx =>
      (memGet h r.buffer idx).bind fun x =>
      (memSet h out i x).bind fun h2 =>
      readNewLoopMem r n out fuel (i + 1) h2
    else some h

/-- Method `ReadNew(n)` over memory: the slice returned, the memory and the receiver left. -/
def ReadNewMem [Inhabited E] (h : List (List E)) (r : Receiver) (n : Int) :
    Option (List E × List (List E) × Receiver) :=
  (memMake h (min n (rLock r).currentSize)).bind fun p =>
  (readNewLoopMem (rLock r) n p.2 (min n (rLock r).currentSize).toNat 0 p.1).bind fun h2 =>
  (rUnlock (rLock r)).bind fun r2 =>
  (h2[p.2]?).bind fun res =>
  some (res, h2, r2)

/-- Loop of `ReadOld` over memory; `out` is the address of the result slice. -/
def readOldLoopMem (r : Receiver) (n : Int) (out : Nat) :
    Nat → Nat → List (List E) → Option (List (List E))
  | 0, i, h => if (i : Int) < min n r.currentSize then none else some h
  | fuel + 1, i, h =>
    if (i : Int) < min n r.currentSize then
      (goRem (r.currentPos + i) r.currentSize).bind fun idx =>
      (memGet h r.buffer idx).bind fun x =>
      (memSet h out i x).bind fun h2 =>
      readOldLoopMem r n out fuel (i + 1) h2
    else some h

/-- Method `ReadOld(n)` over memory. -/
def ReadOldMem [Inhabited E] (h : List (List E)) (r : Receiver) (n : Int) :
    Option (List E × List (List E) × Receiver) :=
  (memMake h (min n (rLock r).currentSize)).bind fun p =>
  (readOldLoopMem (rLock r) n p.2 (min n (rLock r).currentSize).toNat 0 p.1).bind fun h2 =>
  (rUnlock (rLock r)).bind fun r2 =>
  (h2[p.2]?).bind fun res =>
  some (res, h2, r2)

/-- Method `GetCheckpoint()` over memory. -/
def GetCheckpointMem (h : List (List E)) (r : Receiver) :
    Option (Checkpoint × List (List E) × Receiver) :=
  (rUnlock (rLock r)).bind fun r2 =>
  some ({ pos := (rLock r).currentPos, rotation := (rLock r).currentRotation }, h, r2)

/-- Method `NewItemsSince(checkpoint)` over memory. -/
def NewItemsSinceMem (h : List (List E)) (r : Receiver) (checkpoint : Checkpoint) :
    Option (Int × List (List E) × Receiver) :=
  let currentAbs := (rLock r).currentRotation * (rLock r).size + (rLock r).currentPos
  let checkpointAbs := checkpoint.rotation * (rLock r).size + checkpoint.pos
  (rUnlock (rLock r)).bind fun r2 =>
  if checkpointAbs > currentAbs then some (0, h, r2) else some (currentAbs - checkpointAbs, h, r2)

/-- Loop of `ReadNewFromCheckpoint` over memory, carrying the memory, the address and the length
of `out`, and `reusedCount`. -/
def readCheckpointLoopMem (r : Receiver) (startReadAbs oldestValidAbs itemsToRead : Int) :
    Nat → Nat → List (List E) → Nat → Nat → Int → Option (List (List E) × Nat × Nat × Int)
  | 0, i, h, out, len, reusedCount =>
    if (i : Int) < itemsToRead then none else some (h, out, len, reusedCount)
  | fuel + 1, i, h, out, len, reusedCount =>
    if (i : Int) < itemsToRead then
      if startReadAbs - i < oldestValidAbs then
        readCheckpointLoopMem r startReadAbs oldestValidAbs itemsToRead fuel (i + 1) h out len
          (reusedCount + 1)
      else
        (goRem (startReadAbs - i) r.size).bind fun bufferIdx =>
        (memGet h r.buffer bufferIdx).bind fun x =>
        (memAppend h out len x).bind fun p =>
        readCheckpointLoopMem r startReadAbs oldestValidAbs itemsToRead fuel (i + 1) p.1 p.2
          (len + 1) reusedCount
    else some (h, out, len, reusedCount)

/-- Method `ReadNewFromCheckpoint(checkpoint, skip, n)` over memory. -/
def ReadNewFromCheckpointMem [Inhabited E] (h : List (List E)) (r : Receiver)
    (checkpoint : Checkpoint) (skip n : Int) :
    Option ((List E × Missing) × List (List E) × Receiver) :=
  let currentAbs := (rLock r).currentRotation * (rLock r).size + (rLock r).currentPos
  let checkpointAbs := checkpoint.rotation * (rLock r).size + checkpoint.pos
  let availableAtCheckpoint := if checkpoint.rotation = 0 then checkpoint.pos else (rLock r).size
  let oldestValidAbs := currentAbs - (rLock r).currentSize
  let startReadAbs := checkpointAbs - 1 - skip
  let effectiveAvailable := max 0 (availableAtCheckpoint - skip)
  let itemsToRead := min n effectiveAvailable
  (memMake h itemsToRead).bind fun p =>
  (readCheckpointLoopMem (rLock r) startReadAbs oldestValidAbs itemsToRead itemsToRead.toNat 0
    p.1 p.2 0 0).bind fun q =>
  (rUnlock (rLock r)).bind fun r2 =>
  (q.1[q.2.1]?).bind fun arr =>
  some ((arr.take q.2.2.1, { Reused := q.2.2.2, Max := itemsToRead }), q.1, r2)

/-- Run one read-only call over memory. -/
def runRead [Inhabited E] (h : List (List E)) (r : Receiver) :
    ReadCall → Option (ReadResult E × List (List E) × Receiver)
  | .readNew n => (ReadNewMem h r n).map fun p => (ReadResult.items p.1, p.2)
  | .readOld n => (ReadOldMem h r n).map fun p => (ReadResult.items p.1, p.2)
  | .readNewFromCheckpoint checkpoint skip n =>
    (ReadNewFromCheckpointMem h r checkpoint skip n).map fun p =>
      (ReadResult.itemsMissing p.1.1 p.1.2, p.2)
  | .getCheckpoint => (GetCheckpointMem h r).map fun p => (ReadResult.checkpoint p.1, p.2)
  | .newItemsSince checkpoint =>
    (NewItemsSinceMem h r checkpoint).map fun p => (ReadResult.count p.1, p.2)

/-- Run read-only calls one after the other over memory, collecting what they return. -/
def runReadsMem [Inhabited E] (h : List (List E)) (r : Receiver) :
    List ReadCall → Option (List (ReadResult E) × List (List E) × Receiver)
  | [] => some ([], h, r)
  | c :: cs =>
    (runRead h r c).bind fun p =>
      (runReadsMem p.2.1 p.2.2 cs).map fun q => (p.1 :: q.1, q.2)

/-- The value a read-only call returns according to the methods over buffer states. -/
def readValue [Inhabited E] (b : RVBuffer E) : ReadCall → Option (ReadResult E)
  | .readNew n => (ReadNew b n).map ReadResult.items
  | .readOld n => (ReadOld b n).map ReadResult.items
  | .readNewFromCheckpoint checkpoint skip n =>
    (ReadNewFromCheckpoint b checkpoint skip n).map fun p => ReadResult.itemsMissing p.1 p.2
  | .getCheckpoint => some (ReadResult.checkpoint (GetCheckpoint b))
  | .newItemsSince checkpoint => some (ReadResult.count (NewItemsSince b checkpoint))

/-- Arguments of a read-only call a caller of buffer `b` passes: counts `n` and `skip` that are
not negative, and for `ReadNewFromCheckpoint` a checkpoint that lies within what `b` has seen
(as every checkpoint taken from `b` earlier does). -/
def callInDomain (b : RVBuffer E) : ReadCall → Bool
  | .readNew n => decide (0 ≤ n)
  | .readOld n => decide (0 ≤ n)
  | .readNewFromCheckpoint checkpoint skip n =>
    decide (0 ≤ n) && decide (0 ≤ skip) && decide (0 ≤ checkpoint.rotation) &&
      decide (0 ≤ checkpoint.pos) && decide (checkpoint.pos < b.size) &&
      decide (checkpoint.rotation * b.size + checkpoint.pos ≤
        b.currentRotation * b.size + b.currentPos)
  | .getCheckpoint => true
  | .newItemsSince _ => true

/-- Example memory: the backing array of `exampleWrapped` at address 0. -/
def exampleMemory : List (List Int) :=
  [[4, 5, 3]]

/-- Example receiver: `exampleWrapped` stored at address 0, with no lock held. -/
def exampleReceiver : Receiver :=
  { buffer := 0, size := 3, currentPos := 2, currentSize := 3, currentRotation := 1, readers := 0 }

/-! ## 64-bit `int` arithmetic -/

/-- The value of the exact result `x` in Go's 64-bit `int`: wrapped into `[-2^63, 2^63)`. -/
def wrapInt64 (x : Int) : Int :=
  (x + 9223372036854775808) % 18446744073709551616 - 9223372036854775808

/-- The exact value `x` is representable as a 64-bit `int`. -/
def fitsInt64 (x : Int) : Prop :=
  -9223372036854775808 ≤ x ∧ x < 9223372036854775808

/-- Method `NewItemsSince(checkpoint)` with the wrap-around of 64-bit `int` arithmetic. -/
def NewItemsSince64 (b : RVBuffer E) (checkpoint : Checkpoint) : Int :=
  let currentAbs := wrapInt64 (wrapInt64 (b.currentRotation * b.size) + b.currentPos)
  let checkpointAbs := wrapInt64 (wrapInt64 (checkpoint.rotation * b.size) + checkpoint.pos)
  if checkpointAbs > currentAbs then 0 else wrapInt64 (currentAbs - checkpointAbs)

/-- Scenario of the spec: capacity 4, push `[1,2]`, take a checkpoint, push `[4,5,6,7,8]`, then
`ReadNewFromCheckpoint(checkpoint, 0, 4)` and `NewItemsSince(checkpoint)`. -/
def checkpointScenario : Option ((List Int × Missing) × Int) := do
  let b0 ← NewBuffer 4
  let b1 ← PushMany b0 [1, 2]
  let checkpoint := GetCheckpoint b1
  let b2 ← PushMany b1 [4, 5, 6, 7, 8]
  let r ← ReadNewFromCheckpoint b2 checkpoint 0 4
  some (r, NewItemsSince b2 checkpoint)

/-! ## Arithmetic of the cursor -/

theorem succ_mod_div_wrap {S t : Nat} (h : t % S + 1 = S) :
    (t + 1) % S = 0 ∧ (t + 1) / S = t / S + 1 := by
  have hS : 0 < S := by omega
  have h1 := Nat.div_add_mod t S
  have h2 : t + 1 = S * (t / S + 1) := by rw [Nat.mul_add, Nat.mul_one]; omega
  rw [h2]
  exact ⟨Nat.mul_mod_right _ _, Nat.mul_div_cancel_left _ hS⟩

theorem succ_mod_div_step {S t : Nat} (hS : 0 < S) (h : t % S + 1 ≠ S) :
    (t + 1) % S = t % S + 1 ∧ (t + 1) / S = t / S := by
  have hlt : t % S < S := Nat.mod_lt _ hS
  have h1 := Nat.div_add_mod t S
  have h2 : t + 1 = (t % S + 1) + S * (t / S) := by omega
  have h3 : t % S + 1 < S := by omega
  rw [h2]
  constructor
  · rw [Nat.add_mul_mod_self_left, Nat.mod_eq_of_lt h3]
  · rw [Nat.add_mul_div_left _ _ hS, Nat.div_eq_of_lt h3, Nat.zero_add]

theorem mod_ne_of_window {S j t : Nat} (h1 : j < t) (h2 : t < j + S) : j % S ≠ t % S := by
  intro h
  have h3 : (t - j) % S = 0 := Nat.sub_mod_eq_zero_of_mod_eq h.symm
  have h4 : (t - j) % S = t - j := Nat.mod_eq_of_lt (by omega)
  omega

/-! ## Pushing -/

theorem newBuffer_tracks [Inhabited E] (S : Nat) :
    ∃ b0 : RVBuffer E, NewBuffer (S : Int) = some b0 ∧ Tracks S [] b0 := by
  refine ⟨{ buffer := List.replicate S default, size := S, currentPos := 0, currentSize := 0,
             currentRotation := 0 }, ?_, ?_⟩
  · have h0 : ¬ ((S : Int) < 0) := by omega
    simp [NewBuffer, makeSlice, h0]
  · constructor <;> simp

theorem push_tracks {S : Nat} {xs : List E} {b : RVBuffer E} (hS : 0 < S) (h : Tracks S xs b)
    (x : E) : ∃ b2, Push b x = some b2 ∧ Tracks S (xs ++ [x]) b2 := by
  obtain ⟨hsz, hlen, hpos, hrot, hcs, hslot⟩ := h
  have hlt : xs.length % S < S := Nat.mod_lt _ hS
  have hS0 : (S : Int) ≠ 0 := by omega
  have hset : sliceSet b.buffer b.currentPos x = some (b.buffer.set (xs.length % S) x) := by
    have h1 : (0 : Int) ≤ ((xs.length % S : Nat) : Int) ∧
        ((xs.length % S : Nat) : Int) < ((b.buffer.length : Nat) : Int) := by omega
    rw [sliceSet, hpos, if_pos h1, Int.toNat_ofNat]
  have hrem : goRem (b.currentPos + 1) b.size = some (((xs.length + 1) % S : Nat) : Int) := by
    simp only [goRem, hsz, hS0, if_false, hpos]
    rw [Int.tmod_eq_emod (by omega) (by omega)]
    norm_cast
    rw [Nat.mod_add_mod]
  refine ⟨_, by simp [Push, hset, hrem]; rfl, ?_⟩
  constructor
  · simp [hsz]
  · simp [hlen]
  · simp
  · simp only [hpos, hsz, hrot, List.length_append, List.length_singleton]
    by_cases hw : xs.length % S + 1 = S
    · rw [(succ_mod_div_wrap hw).2, if_pos (by omega)]
      push_cast; ring
    · rw [(succ_mod_div_step hS hw).2, if_neg (by omega)]
  · simp only [hpos, hsz, hcs, List.length_append, List.length_singleton]
    have hle : xs.length % S ≤ xs.length := Nat.mod_le _ _
    have hid : xs.length < S → xs.length % S = xs.length := fun hl => Nat.mod_eq_of_lt hl
    omega
  · intro j hj hj2
    simp only [List.length_append, List.length_singleton] at hj hj2
    rw [List.getElem?_set]
    by_cases hjt : j = xs.length
    · subst hjt
      simp [hlen, hlt]
    · have hj3 : j < xs.length := by omega
      have hne := mod_ne_of_window hj3 (by omega : xs.length < j + S)
      rw [if_neg (Ne.symm hne), hslot j hj3 (by omega), List.getElem?_append_left hj3]

theorem pushEach_tracks {S : Nat} (hS : 0 < S) (ys : List E) :
    ∀ (xs : List E) (b : RVBuffer E), Tracks S xs b →
      ∃ b2, pushEach b ys = some b2 ∧ Tracks S (xs ++ ys) b2 := by
  induction ys with
  | nil => intro xs b h; exact ⟨b, rfl, by simpa using h⟩
  | cons y ys ih =>
    intro xs b h
    obtain ⟨b1, h1, ht1⟩ := push_tracks hS h y
    obtain ⟨b2, h2, ht2⟩ := ih _ _ ht1
    exact ⟨b2, by simp [pushEach, h1, h2], by simpa using ht2⟩

theorem pushMany_eq_pushEach (items : List E) :
    ∀ b : RVBuffer E, PushMany b items = pushEach b items := by
  induction items with
  | nil => intro b; rfl
  | cons y ys ih =>
    intro b
    simp only [PushMany, pushEach, Push, ih]
    cases sliceSet b.buffer b.currentPos y <;> simp
    cases goRem (b.currentPos + 1) b.size <;> simp

theorem runOps_tracks {S : Nat} (hS : 0 < S) (ops : List (Op E)) :
    ∀ (xs : List E) (b : RVBuffer E), Tracks S xs b →
      ∃ b2, runOps b ops = some b2 ∧ Tracks S (xs ++ pushedItems ops) b2 := by
  induction ops with
  | nil => intro xs b h; exact ⟨b, rfl, by simpa [pushedItems] using h⟩
  | cons op ops ih =>
    intro xs b h
    have h1 : ∃ b1, applyOp b op = some b1 ∧ Tracks S (xs ++ op.items) b1 := by
      cases op with
      | push item =>
        obtain ⟨b1, hb1, ht1⟩ := push_tracks hS h item
        exact ⟨b1, hb1, ht1⟩
      | pushMany items =>
        obtain ⟨b1, hb1, ht1⟩ := pushEach_tracks hS items xs b h
        exact ⟨b1, by simpa [applyOp, pushMany_eq_pushEach] using hb1, ht1⟩
    obtain ⟨b1, hb1, ht1⟩ := h1
    obtain ⟨b2, hb2, ht2⟩ := ih _ _ ht1
    exact ⟨b2, by simp [runOps, hb1, hb2], by simpa [pushedItems] using ht2⟩

/-! ## Loops -/

theorem getElem?_eq_some_getD {xs : List E} {j : Nat} (h : j < xs.length) (d : E) :
    xs[j]? = some (xs.getD j d) := by
  simp [List.getD, List.getElem?_eq_getElem h]

theorem fillLoop_spec (f : Nat → Option E) (m : Nat) (g : Nat → E)
    (hg : ∀ i, i < m → f i = some (g i)) :
    ∀ (fuel i : Nat) (out : List E), i + fuel = m → out.length = m →
      (∀ j, j < i → out[j]? = some (g j)) →
      fillLoop f (m : Int) fuel i out = some ((List.range m).map g) := by
  intro fuel
  induction fuel with
  | zero =>
    intro i out hi hlen hout
    have him : i = m := by omega
    subst him
    have hnot : ¬ ((i : Int) < (i : Int)) := by omega
    rw [fillLoop, if_neg hnot]
    congr 1
    apply List.ext_getElem?
    intro j
    by_cases hj : j < i
    · rw [hout j hj]
      simp [hj]
    · rw [List.getElem?_eq_none (by omega), List.getElem?_eq_none (by simp; omega)]
  | succ fuel ih =>
    intro i out hi hlen hout
    have him : i < m := by omega
    have hlt : ((i : Int) < (m : Int)) := by omega
    have hset : sliceSet out i (g i) = some (out.set i (g i)) := by
      have h1 : (0 : Int) ≤ (i : Int) ∧ (i : Int) < ((out.length : Nat) : Int) := by omega
      rw [sliceSet, if_pos h1, Int.toNat_ofNat]
    rw [fillLoop, if_pos hlt, hg i him, Option.some_bind, hset, Option.some_bind]
    apply ih (i + 1) _ (by omega) (by simpa using hlen)
    intro j hj
    rw [List.getElem?_set]
    by_cases hij : i = j
    · subst hij
      simp [hlen, him]
    · rw [if_neg hij]
      exact hout j (by omega)

theorem readNewLoop_eq_fillLoop (b : RVBuffer E) (n : Int) :
    ∀ (fuel i : Nat) (out : List E),
      readNewLoop b n fuel i out =
        fillLoop (fun i => (goRem (b.currentSize + b.currentPos - 1 - (i : Int)) b.currentSize).bind
          (sliceGet b.buffer)) (min n b.currentSize) fuel i out := by
  intro fuel
  induction fuel with
  | zero => intro i out; rfl
  | succ fuel ih =>
    intro i out
    simp only [readNewLoop, fillLoop, ih]
    split
    · cases goRem (b.currentSize + b.currentPos - 1 - (i : Int)) b.currentSize with
      | none => rfl
      | some idx => cases sliceGet b.buffer idx <;> rfl
    · rfl

theorem readOldLoop_eq_fillLoop (b : RVBuffer E) (n : Int) :
    ∀ (fuel i : Nat) (out : List E),
      readOldLoop b n fuel i out =
        fillLoop (fun i => (goRem (b.currentPos + (i : Int)) b.currentSize).bind
          (sliceGet b.buffer)) (min n b.currentSize) fuel i out := by
  intro fuel
  induction fuel with
  | zero => intro i out; rfl
  | succ fuel ih =>
    intro i out
    simp only [readOldLoop, fillLoop, ih]
    split
    · cases goRem (b.currentPos + (i : Int)) b.currentSize with
      | none => rfl
      | some idx => cases sliceGet b.buffer idx <;> rfl
    · rfl

theorem readCheckpointLoop_spec (b : RVBuffer E) (start o M : Int) (g : Nat → E)
    (hg : ∀ i : Nat, (i : Int) < M → o ≤ start - (i : Int) →
      ∃ idx, goRem (start - (i : Int)) b.size = some idx ∧ sliceGet b.buffer idx = some (g i)) :
    ∀ (fuel i : Nat) (out : List E) (r : Int), ((i + fuel : Nat) : Int) = M →
      readCheckpointLoop b start o M fuel i out r =
        some (out ++ ((List.range' i fuel).filter fun (i : Nat) => decide (o ≤ start - (i : Int))).map g,
              r + (((List.range' i fuel).filter fun (i : Nat) => decide (start - (i : Int) < o)).length : Int)) := by
  intro fuel
  induction fuel with
  | zero =>
    intro i out r hi
    have hnot : ¬ ((i : Int) < M) := by omega
    simp [readCheckpointLoop, hnot]
  | succ fuel ih =>
    intro i out r hi
    have hlt : (i : Int) < M := by omega
    rw [readCheckpointLoop, if_pos hlt]
    by_cases ht : start - (i : Int) < o
    · have hno : ¬ (o ≤ start - (i : Int)) := by omega
      simp only [ht, if_true]
      rw [ih (i + 1) out (r + 1) (by omega)]
      simp [List.range'_succ, List.filter_cons, ht, hno]
      omega
    · have hyes : o ≤ start - (i : Int) := by omega
      obtain ⟨idx, h1, h2⟩ := hg i hlt hyes
      simp only [ht, if_false]
      simp only [h1, h2, Option.bind_eq_bind, Option.some_bind]
      rw [ih (i + 1) (out ++ [g i]) r (by omega)]
      simp [List.range'_succ, List.filter_cons, ht, hyes]

/-! ## Facts about reached states -/

theorem tracks_abs {S : Nat} {xs : List E} {b : RVBuffer E} (h : Tracks S xs b) :
    absSeq b = (xs.length : Int) := by
  rw [absSeq, h.rot_eq, h.size_eq, h.pos_eq]
  have := Nat.div_add_mod' xs.length S
  exact_mod_cast this

theorem tracks_valid {S : Nat} {xs : List E} {b : RVBuffer E} (hS : 0 < S) (h : Tracks S xs b) :
    Valid b := by
  obtain ⟨hsz, hlen, hpos, hrot, hcs, -⟩ := h
  have hlt : xs.length % S < S := Nat.mod_lt _ hS
  have hid : xs.length < S → xs.length % S = xs.length := fun hl => Nat.mod_eq_of_lt hl
  have hd0 : xs.length / S = 0 ↔ xs.length < S := Nat.div_eq_zero_iff hS
  have hd1 : 1 ≤ xs.length / S → S ≤ xs.length := by
    intro h1
    by_contra h2
    rw [Nat.div_eq_of_lt (Nat.lt_of_not_le h2)] at h1
    exact absurd h1 (by decide)
  have hr0 : (0 : Int) ≤ ((xs.length / S : Nat) : Int) := Int.ofNat_nonneg _
  refine ⟨by omega, by omega, by omega, by omega, by omega, by omega, by omega, ?_, ?_⟩
  · intro h0
    have h1 : xs.length / S = 0 := by omega
    have h2 := hd0.1 h1
    have h3 := hid h2
    omega
  · intro h0
    have h1 : 1 ≤ xs.length / S := by omega
    have h2 := hd1 h1
    omega

theorem tracks_lookup {S : Nat} {xs : List E} {b : RVBuffer E} (hS : 0 < S) (h : Tracks S xs b)
    (j : Int) (h1 : specOldest S xs.length ≤ j) (h2 : j < xs.length) :
    ∃ idx, goRem j b.size = some idx ∧ sliceGet b.buffer idx = xs[j.toNat]? := by
  have hS0 : (S : Int) ≠ 0 := by omega
  have hj0 : 0 ≤ j := by
    unfold specOldest at h1
    omega
  obtain ⟨m, rfl⟩ := Int.eq_ofNat_of_zero_le hj0
  refine ⟨((m % S : Nat) : Int), ?_, ?_⟩
  · simp only [goRem, h.size_eq, hS0, if_false]
    rw [Int.tmod_eq_emod (by omega) (by omega)]
    norm_cast
  · have h3 : (0 : Int) ≤ ((m % S : Nat) : Int) := by omega
    rw [sliceGet, if_pos h3, Int.toNat_ofNat, Int.toNat_ofNat]
    apply h.slot m (by omega)
    unfold specOldest at h1
    omega

theorem valid_lookup {b : RVBuffer E} (h : Valid b) (j : Int) (hj : 0 ≤ j) :
    ∃ idx x, goRem j b.size = some idx ∧ sliceGet b.buffer idx = some x := by
  obtain ⟨hs, hlen, -⟩ := h
  have hS0 : b.size ≠ 0 := by omega
  have h0 : 0 ≤ j % b.size := Int.emod_nonneg _ hS0
  have h1 : j % b.size < b.size := Int.emod_lt_of_pos _ hs
  have h2 : (j % b.size).toNat < b.buffer.length := by omega
  refine ⟨j % b.size, b.buffer[(j % b.size).toNat], ?_, ?_⟩
  · simp only [goRem, hS0, if_false]
    rw [Int.tmod_eq_emod hj (by omega)]
  · rw [sliceGet, if_pos h0, List.getElem?_eq_getElem h2]

theorem readCheckpointLoop_length (b : RVBuffer E) (start o M : Int)
    (hg : ∀ target : Int, o ≤ target →
      ∃ idx x, goRem target b.size = some idx ∧ sliceGet b.buffer idx = some x) :
    ∀ (fuel i : Nat) (out : List E) (r : Int), ((i + fuel : Nat) : Int) = M →
      ∃ out2 r2, readCheckpointLoop b start o M fuel i out r = some (out2, r2) ∧
        (out2.length : Int) + r2 = (out.length : Int) + r + (fuel : Int) := by
  intro fuel
  induction fuel with
  | zero =>
    intro i out r hi
    have hnot : ¬ ((i : Int) < M) := by omega
    exact ⟨out, r, by simp [readCheckpointLoop, hnot], by simp⟩
  | succ fuel ih =>
    intro i out r hi
    have hlt : (i : Int) < M := by omega
    rw [readCheckpointLoop, if_pos hlt]
    by_cases ht : start - (i : Int) < o
    · simp only [ht, if_true]
      obtain ⟨out2, r2, h1, h2⟩ := ih (i + 1) out (r + 1) (by omega)
      exact ⟨out2, r2, h1, by rw [h2]; push_cast; ring⟩
    · obtain ⟨idx, x, h1, h2⟩ := hg (start - (i : Int)) (by omega)
      simp only [ht, if_false]
      simp only [h1, h2, Option.bind_eq_bind, Option.some_bind]
      obtain ⟨out2, r2, h3, h4⟩ := ih (i + 1) (out ++ [x]) r (by omega)
      exact ⟨out2, r2, h3, by rw [h4]; simp; ring⟩

/-! ## Reaching a state from `NewBuffer` -/

theorem reach_tracks [Inhabited E] {S : Nat} (hS : 0 < S) (ops : List (Op E)) :
    ∃ b0 b : RVBuffer E, NewBuffer (S : Int) = some b0 ∧ runOps b0 ops = some b ∧
      Tracks S (pushedItems ops) b := by
  obtain ⟨b0, h0, ht0⟩ := newBuffer_tracks (E := E) S
  obtain ⟨b, h1, ht1⟩ := runOps_tracks hS ops [] b0 ht0
  exact ⟨b0, b, h0, h1, by simpa using ht1⟩

theorem reach_tracks_two [Inhabited E] {S : Nat} (hS : 0 < S) (ops1 ops2 : List (Op E)) :
    ∃ b0 b1 b2 : RVBuffer E, NewBuffer (S : Int) = some b0 ∧ runOps b0 ops1 = some b1 ∧
      runOps b1 ops2 = some b2 ∧ Tracks S (pushedItems ops1) b1 ∧
      Tracks S (pushedItems ops1 ++ pushedItems ops2) b2 := by
  obtain ⟨b0, b1, h0, h1, ht1⟩ := reach_tracks hS ops1
  obtain ⟨b2, h2, ht2⟩ := runOps_tracks hS ops2 _ b1 ht1
  exact ⟨b0, b1, b2, h0, h1, h2, ht1, ht2⟩

theorem available_at_checkpoint {S : Nat} {xs : List E} {b : RVBuffer E} (hS : 0 < S)
    (h : Tracks S xs b) :
    (if (GetCheckpoint b).rotation = 0 then (GetCheckpoint b).pos else (S : Int)) =
      min (xs.length : Int) (S : Int) := by
  have hv := tracks_valid hS h
  obtain ⟨-, -, -, -, -, -, hr, h0, h1⟩ := hv
  have hcs := h.csize_eq
  have hsz := h.size_eq
  simp only [GetCheckpoint]
  split
  · rename_i hz
    have := h0 hz
    omega
  · rename_i hz
    have := h1 (by omega)
    omega

/-- What a checkpoint read returns on a state reached by pushes, in terms of the loop index. -/
theorem readNewFromCheckpoint_tracks [Inhabited E] {S : Nat} {xs1 xs : List E}
    {b1 b2 : RVBuffer E} (hS : 0 < S) (h1 : Tracks S xs1 b1) (h2 : Tracks S xs b2)
    (hk : xs1.length ≤ xs.length) (skip n : Nat) :
    ReadNewFromCheckpoint b2 (GetCheckpoint b1) skip n =
      some (((List.range (specMax S xs1.length skip n).toNat).filter fun (i : Nat) =>
                decide (specOldest S xs.length ≤ (xs1.length : Int) - 1 - skip - i)).map
              (fun (i : Nat) => xs.getD ((xs1.length : Int) - 1 - skip - i).toNat default),
            { Reused := (((List.range (specMax S xs1.length skip n).toNat).filter fun (i : Nat) =>
                decide ((xs1.length : Int) - 1 - skip - i < specOldest S xs.length)).length : Int),
              Max := specMax S xs1.length skip n }) := by
  have hcur : b2.currentRotation * (S : Int) + b2.currentPos = (xs.length : Int) := by
    have := tracks_abs h2
    rwa [absSeq, h2.size_eq] at this
  have hcp : (GetCheckpoint b1).rotation * (S : Int) + (GetCheckpoint b1).pos = (xs1.length : Int) := by
    have := tracks_abs h1
    rwa [absSeq, h1.size_eq] at this
  have hav := available_at_checkpoint hS h1
  have hM0 : 0 ≤ specMax S xs1.length skip n := by
    unfold specMax
    omega
  have hloop := readCheckpointLoop_spec b2 ((xs1.length : Int) - 1 - skip)
    (specOldest S xs.length) (specMax S xs1.length skip n)
    (fun (i : Nat) => xs.getD ((xs1.length : Int) - 1 - skip - i).toNat default) (by
      intro i _ ho
      have hlt : (xs1.length : Int) - 1 - skip - i < xs.length := by omega
      obtain ⟨idx, e1, e2⟩ := tracks_lookup hS h2 _ ho hlt
      refine ⟨idx, e1, ?_⟩
      rw [e2]
      apply getElem?_eq_some_getD
      have : 0 ≤ specOldest S xs.length := by
        unfold specOldest
        omega
      omega)
    (specMax S xs1.length skip n).toNat 0 [] 0 (by
      rw [Nat.zero_add]
      exact Int.toNat_of_nonneg hM0)
  have hcs : b2.currentSize = min (xs.length : Int) (S : Int) := by
    rw [h2.csize_eq]
    omega
  have hneg : ¬ (specMax S xs1.length skip n < 0) := by omega
  simp only [specMax, specOldest] at hloop hneg ⊢
  unfold ReadNewFromCheckpoint
  simp only [h2.size_eq, hcur, hcp, hav, hcs, if_neg hneg, hloop]
  simp [List.range_eq_range']

/-! ## Index arithmetic of `ReadNew` and `ReadOld` -/

theorem readNew_index {S : Nat} {xs : List E} {b : RVBuffer E} (h : Tracks S xs b)
    (i : Nat) (hi : i < min xs.length S) :
    goRem (b.currentSize + b.currentPos - 1 - (i : Int)) b.currentSize =
      some (((xs.length - 1 - i) % S : Nat) : Int) := by
  rw [h.csize_eq, h.pos_eq]
  rcases Nat.lt_or_ge xs.length S with hlt | hge
  · have hc : min xs.length S = xs.length := Nat.min_eq_left (by omega)
    rw [hc] at hi ⊢
    rw [Nat.mod_eq_of_lt hlt, Nat.mod_eq_of_lt (by omega : xs.length - 1 - i < S)]
    have hne : ((xs.length : Nat) : Int) ≠ 0 := by omega
    simp only [goRem, hne, if_false]
    rw [Int.tmod_eq_emod (by omega) (by omega)]
    have he : ((xs.length : Int) + (xs.length : Int) - 1 - (i : Int)) =
        ((xs.length - 1 - i : Nat) : Int) + (xs.length : Int) * 1 := by omega
    rw [he, Int.add_mul_emod_self_left, Int.emod_eq_of_lt (by omega) (by omega)]
  · have hc : min xs.length S = S := Nat.min_eq_right hge
    rw [hc] at hi ⊢
    have hne : ((S : Nat) : Int) ≠ 0 := by omega
    have hp : xs.length % S < S := Nat.mod_lt _ (by omega)
    have hq : 0 < xs.length / S := Nat.div_pos hge (by omega)
    obtain ⟨q, hq2⟩ : ∃ q, xs.length / S = q + 1 := ⟨xs.length / S - 1, by omega⟩
    have hdm := Nat.div_add_mod xs.length S
    rw [hq2, Nat.mul_succ] at hdm
    simp only [goRem, hne, if_false]
    rw [Int.tmod_eq_emod (by omega) (by omega)]
    have he : ((S : Int) + ((xs.length % S : Nat) : Int) - 1 - (i : Int)) =
        ((S + xs.length % S - 1 - i : Nat) : Int) := by omega
    have hn : xs.length - 1 - i = (S + xs.length % S - 1 - i) + S * q := by omega
    rw [he, hn, Nat.add_mul_mod_self_left]
    norm_cast

theorem readOld_index {S : Nat} {xs : List E} {b : RVBuffer E} (h : Tracks S xs b)
    (i : Nat) (hi : i < min xs.length S) :
    goRem (b.currentPos + (i : Int)) b.currentSize =
      some (((xs.length - min xs.length S + i) % S : Nat) : Int) := by
  rw [h.csize_eq, h.pos_eq]
  rcases Nat.lt_or_ge xs.length S with hlt | hge
  · have hc : min xs.length S = xs.length := Nat.min_eq_left (by omega)
    rw [hc] at hi ⊢
    rw [Nat.mod_eq_of_lt hlt, Nat.sub_self, Nat.zero_add, Nat.mod_eq_of_lt (by omega : i < S)]
    have hne : ((xs.length : Nat) : Int) ≠ 0 := by omega
    simp only [goRem, hne, if_false]
    rw [Int.tmod_eq_emod (by omega) (by omega)]
    have he : ((xs.length : Int) + (i : Int)) = (i : Int) + (xs.length : Int) * 1 := by omega
    rw [he, Int.add_mul_emod_self_left, Int.emod_eq_of_lt (by omega) (by omega)]
  · have hc : min xs.length S = S := Nat.min_eq_right hge
    rw [hc] at hi ⊢
    have hne : ((S : Nat) : Int) ≠ 0 := by omega
    have hp : xs.length % S < S := Nat.mod_lt _ (by omega)
    have hq : 0 < xs.length / S := Nat.div_pos hge (by omega)
    obtain ⟨q, hq2⟩ : ∃ q, xs.length / S = q + 1 := ⟨xs.length / S - 1, by omega⟩
    have hdm := Nat.div_add_mod xs.length S
    rw [hq2, Nat.mul_succ] at hdm
    simp only [goRem, hne, if_false]
    rw [Int.tmod_eq_emod (by omega) (by omega)]
    have hn : xs.length - S + i = (xs.length % S + i) + S * q := by omega
    rw [hn, Nat.add_mul_mod_self_left]
    norm_cast

theorem slot_lookup {S : Nat} {xs : List E} {b : RVBuffer E} [Inhabited E] (h : Tracks S xs b)
    (j : Nat) (h1 : j < xs.length) (h2 : xs.length ≤ j + S) :
    sliceGet b.buffer (((j % S : Nat) : Int)) = some (xs.getD j default) := by
  have h3 : (0 : Int) ≤ ((j % S : Nat) : Int) := by omega
  rw [sliceGet, if_pos h3, Int.toNat_ofNat, h.slot j h1 h2]
  exact getElem?_eq_some_getD h1 _

theorem readNew_tracks [Inhabited E] {S : Nat} {xs : List E} {b : RVBuffer E}
    (h : Tracks S xs b) (n : Nat) :
    ReadNew b n = some ((List.range (min n (min xs.length S))).map
      fun (i : Nat) => xs.getD (xs.length - 1 - i) default) := by
  have hm : min (n : Int) b.currentSize = ((min n (min xs.length S) : Nat) : Int) := by
    rw [h.csize_eq]
    omega
  have hmk : makeSlice (E := E) (min (n : Int) b.currentSize) =
      some (List.replicate (min n (min xs.length S)) default) := by
    rw [hm, makeSlice, if_neg (by omega), Int.toNat_ofNat]
  unfold ReadNew
  simp only [hmk, Option.bind_eq_bind, Option.some_bind, readNewLoop_eq_fillLoop]
  rw [hm, Int.toNat_ofNat]
  apply fillLoop_spec _ _ _ _ _ 0 _ (by omega) (by simp) (by intro j hj; omega)
  intro i hi
  rw [readNew_index h i (by omega), Option.some_bind]
  exact slot_lookup h _ (by omega) (by omega)

theorem readOld_tracks [Inhabited E] {S : Nat} {xs : List E} {b : RVBuffer E}
    (h : Tracks S xs b) (n : Nat) :
    ReadOld b n = some ((List.range (min n (min xs.length S))).map
      fun (i : Nat) => xs.getD (xs.length - min xs.length S + i) default) := by
  have hm : min (n : Int) b.currentSize = ((min n (min xs.length S) : Nat) : Int) := by
    rw [h.csize_eq]
    omega
  have hmk : makeSlice (E := E) (min (n : Int) b.currentSize) =
      some (List.replicate (min n (min xs.length S)) default) := by
    rw [hm, makeSlice, if_neg (by omega), Int.toNat_ofNat]
  unfold ReadOld
  simp only [hmk, Option.bind_eq_bind, Option.some_bind, readOldLoop_eq_fillLoop]
  rw [hm, Int.toNat_ofNat]
  apply fillLoop_spec _ _ _ _ _ 0 _ (by omega) (by simp) (by intro j hj; omega)
  intro i hi
  rw [readOld_index h i (by omega), Option.some_bind]
  exact slot_lookup h _ (by omega) (by omega)

theorem newest_eq_reverse_take [Inhabited E] (xs : List E) (r : Nat) (hr : r ≤ xs.length) :
    ((List.range r).map fun (i : Nat) => xs.getD (xs.length - 1 - i) default) =
      xs.reverse.take r := by
  apply List.ext_getElem?
  intro i
  by_cases hi : i < r
  · rw [List.getElem?_map, List.getElem?_range hi, List.getElem?_take_of_lt hi,
      List.getElem?_reverse (by omega)]
    simp only [Option.map_some']
    exact (getElem?_eq_some_getD (by omega) _).symm
  · rw [List.getElem?_eq_none (by simp; omega), List.getElem?_eq_none (by simp; omega)]

theorem oldest_eq_drop_take [Inhabited E] (xs : List E) (d r : Nat) (hr : d + r ≤ xs.length) :
    ((List.range r).map fun (i : Nat) => xs.getD (d + i) default) = (xs.drop d).take r := by
  apply List.ext_getElem?
  intro i
  by_cases hi : i < r
  · rw [List.getElem?_map, List.getElem?_range hi, List.getElem?_take_of_lt hi,
      List.getElem?_drop]
    simp only [Option.map_some']
    exact (getElem?_eq_some_getD (by omega) _).symm
  · rw [List.getElem?_eq_none (by simp; omega), List.getElem?_eq_none (by simp; omega)]

/-! ## Pushing into any valid state -/

theorem push_valid {b : RVBuffer E} (h : Valid b) (x : E) :
    ∃ b2, Push b x = some b2 ∧ Valid b2 := by
  obtain ⟨hs, hlen, hp0, hp1, hc0, hc1, hr0, hz, hnz⟩ := h
  have hS0 : b.size ≠ 0 := by omega
  have hset : sliceSet b.buffer b.currentPos x = some (b.buffer.set b.currentPos.toNat x) := by
    rw [sliceSet, if_pos ⟨hp0, by omega⟩]
  have hrem : goRem (b.currentPos + 1) b.size = some ((b.currentPos + 1) % b.size) := by
    simp only [goRem, hS0, if_false]
    rw [Int.tmod_eq_emod (by omega) (by omega)]
  have hm0 : 0 ≤ (b.currentPos + 1) % b.size := Int.emod_nonneg _ hS0
  have hm1 : (b.currentPos + 1) % b.size < b.size := Int.emod_lt_of_pos _ hs
  have hstep : b.currentPos + 1 < b.size → (b.currentPos + 1) % b.size = b.currentPos + 1 :=
    fun hl => Int.emod_eq_of_lt (by omega) hl
  refine ⟨_, by simp [Push, hset, hrem]; rfl, ?_⟩
  refine ⟨hs, by simpa using hlen, hm0, hm1, ?_, ?_, ?_, ?_, ?_⟩
  · show 0 ≤ min b.size (max (b.currentPos + 1) b.currentSize)
    omega
  · show min b.size (max (b.currentPos + 1) b.currentSize) ≤ b.size
    omega
  · show 0 ≤ (if b.currentPos + 1 ≥ b.size then b.currentRotation + 1 else b.currentRotation)
    split <;> omega
  · show (if b.currentPos + 1 ≥ b.size then b.currentRotation + 1 else b.currentRotation) = 0 →
      min b.size (max (b.currentPos + 1) b.currentSize) = (b.currentPos + 1) % b.size
    split
    · intro h0
      omega
    · intro h0
      have := hz h0
      have := hstep (by omega)
      omega
  · show 1 ≤ (if b.currentPos + 1 ≥ b.size then b.currentRotation + 1 else b.currentRotation) →
      min b.size (max (b.currentPos + 1) b.currentSize) = b.size
    split
    · intro _
      omega
    · intro h1
      have := hnz h1
      omega

theorem pushEach_valid (items : List E) :
    ∀ b : RVBuffer E, Valid b → ∃ b2, pushEach b items = some b2 ∧ Valid b2 := by
  induction items with
  | nil => intro b h; exact ⟨b, rfl, h⟩
  | cons y ys ih =>
    intro b h
    obtain ⟨b1, h1, hv1⟩ := push_valid h y
    obtain ⟨b2, h2, hv2⟩ := ih b1 hv1
    exact ⟨b2, by simp [pushEach, h1, h2], hv2⟩

/-! ## Reads on any valid state -/

theorem fillLoop_total (f : Nat → Option E) (m : Nat)
    (hf : ∀ i, i < m → ∃ x, f i = some x) :
    ∀ (fuel i : Nat) (out : List E), i + fuel = m → out.length = m →
      ∃ res, fillLoop f (m : Int) fuel i out = some res ∧ res.length = m := by
  intro fuel
  induction fuel with
  | zero =>
    intro i out hi hlen
    have hnot : ¬ ((i : Int) < (m : Int)) := by omega
    exact ⟨out, by rw [fillLoop, if_neg hnot], hlen⟩
  | succ fuel ih =>
    intro i out hi hlen
    have him : i < m := by omega
    have hlt : ((i : Int) < (m : Int)) := by omega
    obtain ⟨x, hx⟩ := hf i him
    have hset : sliceSet out i x = some (out.set i x) := by
      have h1 : (0 : Int) ≤ (i : Int) ∧ (i : Int) < ((out.length : Nat) : Int) := by omega
      rw [sliceSet, if_pos h1, Int.toNat_ofNat]
    rw [fillLoop, if_pos hlt, hx, Option.some_bind, hset, Option.some_bind]
    exact ih (i + 1) _ (by omega) (by simpa using hlen)

theorem valid_lookup_mod {b : RVBuffer E} (h : Valid b) (a : Int) (ha : 0 ≤ a)
    (hc : 0 < b.currentSize) :
    ∃ x, (goRem a b.currentSize).bind (sliceGet b.buffer) = some x := by
  obtain ⟨hs, hlen, -, -, -, hc1, -⟩ := h
  have hne : b.currentSize ≠ 0 := by omega
  have h0 : 0 ≤ a % b.currentSize := Int.emod_nonneg _ hne
  have h1 : a % b.currentSize < b.currentSize := Int.emod_lt_of_pos _ hc
  have h2 : (a % b.currentSize).toNat < b.buffer.length := by omega
  refine ⟨b.buffer[(a % b.currentSize).toNat], ?_⟩
  simp only [goRem, hne, if_false, Option.some_bind]
  rw [Int.tmod_eq_emod ha (by omega), sliceGet, if_pos h0, List.getElem?_eq_getElem h2]

theorem readNew_valid [Inhabited E] {b : RVBuffer E} (h : Valid b) (n : Int) (hn : 0 ≤ n) :
    ∃ out, ReadNew b n = some out ∧ (out.length : Int) = min n b.currentSize := by
  have hv := h
  obtain ⟨hs, hlen, hp0, hp1, hc0, hc1, -⟩ := hv
  obtain ⟨m, hm⟩ : ∃ m : Nat, min n b.currentSize = (m : Int) :=
    Int.eq_ofNat_of_zero_le (by omega)
  have hmk : makeSlice (E := E) (min n b.currentSize) = some (List.replicate m default) := by
    rw [hm, makeSlice, if_neg (by omega), Int.toNat_ofNat]
  obtain ⟨res, hres, hl⟩ := fillLoop_total
    (fun (i : Nat) => (goRem (b.currentSize + b.currentPos - 1 - (i : Int)) b.currentSize).bind
      (sliceGet b.buffer)) m
    (fun i hi => valid_lookup_mod h _ (by omega) (by omega))
    m 0 (List.replicate m default) (by omega) (by simp)
  refine ⟨res, ?_, by omega⟩
  unfold ReadNew
  simp only [hmk, Option.bind_eq_bind, Option.some_bind, readNewLoop_eq_fillLoop]
  rw [hm, Int.toNat_ofNat]
  exact hres

theorem readOld_valid [Inhabited E] {b : RVBuffer E} (h : Valid b) (n : Int) (hn : 0 ≤ n) :
    ∃ out, ReadOld b n = some out ∧ (out.length : Int) = min n b.currentSize := by
  have hv := h
  obtain ⟨hs, hlen, hp0, hp1, hc0, hc1, -⟩ := hv
  obtain ⟨m, hm⟩ : ∃ m : Nat, min n b.currentSize = (m : Int) :=
    Int.eq_ofNat_of_zero_le (by omega)
  have hmk : makeSlice (E := E) (min n b.currentSize) = some (List.replicate m default) := by
    rw [hm, makeSlice, if_neg (by omega), Int.toNat_ofNat]
  obtain ⟨res, hres, hl⟩ := fillLoop_total
    (fun (i : Nat) => (goRem (b.currentPos + (i : Int)) b.currentSize).bind
      (sliceGet b.buffer)) m
    (fun i hi => valid_lookup_mod h _ (by omega) (by omega))
    m 0 (List.replicate m default) (by omega) (by simp)
  refine ⟨res, ?_, by omega⟩
  unfold ReadOld
  simp only [hmk, Option.bind_eq_bind, Option.some_bind, readOldLoop_eq_fillLoop]
  rw [hm, Int.toNat_ofNat]
  exact hres

theorem valid_oldest_nonneg {b : RVBuffer E} (h : Valid b) :
    0 ≤ b.currentRotation * b.size + b.currentPos - b.currentSize := by
  obtain ⟨hs, hlen, hp0, hp1, hc0, hc1, hr0, hz, hnz⟩ := h
  by_cases h0 : b.currentRotation = 0
  · have := hz h0
    rw [h0]
    omega
  · have h1 : 1 ≤ b.currentRotation := by omega
    have h2 := hnz h1
    have h3 : 1 * b.size ≤ b.currentRotation * b.size :=
      Int.mul_le_mul_of_nonneg_right h1 (by omega)
    omega

theorem readNewFromCheckpoint_valid {b : RVBuffer E} (h : Valid b) (checkpoint : Checkpoint)
    (skip n : Int) (hn : 0 ≤ n) :
    ∃ (out : List E) (reused : Int),
      ReadNewFromCheckpoint b checkpoint skip n =
        some (out, { Reused := reused, Max := min n (max 0
          ((if checkpoint.rotation = 0 then checkpoint.pos else b.size) - skip)) }) ∧
      (out.length : Int) + reused = min n (max 0
          ((if checkpoint.rotation = 0 then checkpoint.pos else b.size) - skip)) := by
  have ho := valid_oldest_nonneg h
  obtain ⟨M, hM⟩ : ∃ M : Int, M = min n (max 0
      ((if checkpoint.rotation = 0 then checkpoint.pos else b.size) - skip)) := ⟨_, rfl⟩
  have hM0 : 0 ≤ M := by omega
  obtain ⟨out2, r2, h1, h2⟩ := readCheckpointLoop_length b
    (checkpoint.rotation * b.size + checkpoint.pos - 1 - skip)
    (b.currentRotation * b.size + b.currentPos - b.currentSize) M
    (fun target ht => valid_lookup h target (by omega)) M.toNat 0 [] 0 (by
      rw [Nat.zero_add]
      exact Int.toNat_of_nonneg hM0)
  refine ⟨out2, r2, ?_, ?_⟩
  · unfold ReadNewFromCheckpoint
    simp only [← hM, if_neg (not_lt.mpr hM0), h1]
    rfl
  · rw [← hM]
    simp only [h2, List.length_nil]
    rw [Int.toNat_of_nonneg hM0]
    simp

/-! ## Checkpoint reads on a valid state, in closed form -/

theorem valid_lookup_getD [Inhabited E] {b : RVBuffer E} (h : Valid b) (j : Int) (hj : 0 ≤ j) :
    ∃ idx, goRem j b.size = some idx ∧
      sliceGet b.buffer idx = some (b.buffer.getD (j % b.size).toNat default) := by
  obtain ⟨hs, hlen, -⟩ := h
  have hS0 : b.size ≠ 0 := by omega
  have h0 : 0 ≤ j % b.size := Int.emod_nonneg _ hS0
  have h1 : j % b.size < b.size := Int.emod_lt_of_pos _ hs
  have h2 : (j % b.size).toNat < b.buffer.length := by omega
  refine ⟨j % b.size, ?_, ?_⟩
  · simp only [goRem, hS0, if_false]
    rw [Int.tmod_eq_emod hj (by omega)]
  · rw [sliceGet, if_pos h0]
    exact getElem?_eq_some_getD h2 _

theorem readNewFromCheckpoint_valid_eq [Inhabited E] {b : RVBuffer E} (h : Valid b)
    (checkpoint : Checkpoint) (skip n : Int) (hn : 0 ≤ n) :
    ReadNewFromCheckpoint b checkpoint skip n =
      some (((requestedSeqs (checkpoint.rotation * b.size + checkpoint.pos) skip
                (min n (max 0 ((if checkpoint.rotation = 0 then checkpoint.pos else b.size)
                  - skip)))).filter fun j => decide (absSeq b - b.currentSize ≤ j)).map
              (fun j => b.buffer.getD (j % b.size).toNat default),
            { Reused := (((requestedSeqs (checkpoint.rotation * b.size + checkpoint.pos) skip
                (min n (max 0 ((if checkpoint.rotation = 0 then checkpoint.pos else b.size)
                  - skip)))).filter fun j => decide (j < absSeq b - b.currentSize)).length : Int),
              Max := min n (max 0 ((if checkpoint.rotation = 0 then checkpoint.pos else b.size)
                  - skip)) }) := by
  have ho := valid_oldest_nonneg h
  obtain ⟨M, hM⟩ : ∃ M : Int, M = min n (max 0
      ((if checkpoint.rotation = 0 then checkpoint.pos else b.size) - skip)) := ⟨_, rfl⟩
  have hM0 : 0 ≤ M := by omega
  have hloop := readCheckpointLoop_spec b
    (checkpoint.rotation * b.size + checkpoint.pos - 1 - skip)
    (b.currentRotation * b.size + b.currentPos - b.currentSize) M
    (fun (i : Nat) => b.buffer.getD
      ((checkpoint.rotation * b.size + checkpoint.pos - 1 - skip - (i : Int)) % b.size).toNat
      default)
    (fun i _ hi => valid_lookup_getD h _ (by omega)) M.toNat 0 [] 0 (by
      rw [Nat.zero_add]
      exact Int.toNat_of_nonneg hM0)
  unfold ReadNewFromCheckpoint
  simp only [← hM, if_neg (not_lt.mpr hM0), hloop, absSeq, requestedSeqs, List.filter_map,
    List.map_map, List.length_map]
  simp [List.range_eq_range', Function.comp_def]

theorem requestedSeqs_append (k skip : Int) (m1 m2 : Nat) :
    requestedSeqs k skip ((m1 : Int) + (m2 : Int)) =
      requestedSeqs k skip m1 ++ requestedSeqs k (skip + (m1 : Int)) m2 := by
  have e : ((m1 : Int) + (m2 : Int)).toNat = m1 + m2 := by omega
  simp only [requestedSeqs, e, Int.toNat_ofNat, List.range_add, List.map_append, List.map_map]
  congr 1
  apply List.map_congr_left
  intro i _
  simp only [Function.comp]
  push_cast
  ring

theorem requestedSeqs_zero (k skip : Int) : requestedSeqs k skip 0 = [] := by
  simp [requestedSeqs]

theorem pageMax_split (avail s a c : Int) (ha : 0 ≤ a) (hc : 0 ≤ c) :
    min (a + c) (max 0 (avail - s)) =
        min a (max 0 (avail - s)) + min c (max 0 (avail - (s + a))) ∧
      (min c (max 0 (avail - (s + a))) = 0 ∨ min a (max 0 (avail - s)) = a) := by
  omega

theorem pagination_valid [Inhabited E] {b : RVBuffer E} (h : Valid b) (checkpoint : Checkpoint)
    (s a c : Int) (ha : 0 ≤ a) (hc : 0 ≤ c) :
    ∃ (o1 o2 : List E) (m1 m2 : Missing),
      ReadNewFromCheckpoint b checkpoint s a = some (o1, m1) ∧
      ReadNewFromCheckpoint b checkpoint (s + a) c = some (o2, m2) ∧
      ReadNewFromCheckpoint b checkpoint s (a + c) =
        some (o1 ++ o2, { Reused := m1.Reused + m2.Reused, Max := m1.Max + m2.Max }) := by
  have e1 := readNewFromCheckpoint_valid_eq h checkpoint s a ha
  have e2 := readNewFromCheckpoint_valid_eq h checkpoint (s + a) c hc
  have e3 := readNewFromCheckpoint_valid_eq h checkpoint s (a + c) (by omega)
  obtain ⟨hsum, hcase⟩ := pageMax_split
    (if checkpoint.rotation = 0 then checkpoint.pos else b.size) s a c ha hc
  obtain ⟨n1, hn1⟩ : ∃ n1 : Nat, min a (max 0
      ((if checkpoint.rotation = 0 then checkpoint.pos else b.size) - s)) = (n1 : Int) :=
    Int.eq_ofNat_of_zero_le (by omega)
  obtain ⟨n2, hn2⟩ : ∃ n2 : Nat, min c (max 0
      ((if checkpoint.rotation = 0 then checkpoint.pos else b.size) - (s + a))) = (n2 : Int) :=
    Int.eq_ofNat_of_zero_le (by omega)
  rw [hn1] at e1
  rw [hn2] at e2
  rw [hsum, hn1, hn2, requestedSeqs_append] at e3
  rw [hn1, hn2] at hcase
  have hshift : requestedSeqs (checkpoint.rotation * b.size + checkpoint.pos) (s + (n1 : Int)) n2 =
      requestedSeqs (checkpoint.rotation * b.size + checkpoint.pos) (s + a) n2 := by
    rcases hcase with h0 | h1
    · rw [h0, requestedSeqs_zero, requestedSeqs_zero]
    · rw [h1]
  rw [hshift] at e3
  refine ⟨_, _, _, _, e1, e2, ?_⟩
  rw [e3]
  simp only [List.filter_append, List.map_append, List.length_append]
  push_cast
  rfl

/-! ## The methods over memory refine the methods over buffer states -/

theorem view_eq_some {h : List (List E)} {r : Receiver} {b : RVBuffer E}
    (hv : view h r = some b) :
    r.buffer < h.length ∧ h[r.buffer]? = some b.buffer ∧ b.size = r.size ∧
      b.currentPos = r.currentPos ∧ b.currentSize = r.currentSize ∧
      b.currentRotation = r.currentRotation := by
  unfold view at hv
  cases hg : h[r.buffer]? with
  | none => rw [hg] at hv; exact absurd hv (by simp)
  | some arr =>
    rw [hg] at hv
    simp only [Option.map_some', Option.some.injEq] at hv
    subst hv
    have hlt : r.buffer < h.length := by
      by_contra hc
      rw [List.getElem?_eq_none (by omega)] at hg
      exact absurd hg (by simp)
    exact ⟨hlt, rfl, rfl, rfl, rfl, rfl⟩

theorem view_append {h : List (List E)} {r : Receiver} {b : RVBuffer E}
    (hv : view h r = some b) (ext : List (List E)) : view (h ++ ext) r = some b := by
  have hlt := (view_eq_some hv).1
  unfold view at hv ⊢
  rw [List.getElem?_append_left hlt]
  exact hv

theorem view_rLock (h : List (List E)) (r : Receiver) : view h (rLock r) = view h r := rfl

theorem rUnlock_rLock (r : Receiver) : rUnlock (rLock r) = some r := by
  simp [rUnlock, rLock]

theorem memGet_append_left (h0 ext : List (List E)) {a : Nat} (ha : a < h0.length) (i : Int) :
    memGet (h0 ++ ext) a i = memGet h0 a i := by
  unfold memGet
  rw [List.getElem?_append_left ha]

theorem memGet_buffer {h0 : List (List E)} {r : Receiver} {b : RVBuffer E}
    (hv : view h0 r = some b) (ext : List (List E)) (i : Int) :
    memGet (h0 ++ ext) r.buffer i = sliceGet b.buffer i := by
  obtain ⟨hlt, harr, -⟩ := view_eq_some hv
  rw [memGet_append_left h0 ext hlt, memGet, harr, Option.some_bind]

theorem memSet_last (h0 : List (List E)) (outArr : List E) (i : Int) (x : E) :
    memSet (h0 ++ [outArr]) h0.length i x =
      (sliceSet outArr i x).map fun arr2 => h0 ++ [arr2] := by
  unfold memSet
  rw [List.getElem?_append_right (le_refl _)]
  simp

theorem memAppend_last (h0 : List (List E)) (outArr : List E) (len : Nat) (x : E)
    (hlen : len < outArr.length) :
    memAppend (h0 ++ [outArr]) h0.length len x = some (h0 ++ [outArr.set len x], h0.length) := by
  unfold memAppend
  rw [List.getElem?_append_right (le_refl _)]
  simp [hlen]

theorem readNewLoopMem_eq {h0 : List (List E)} {r : Receiver} {b : RVBuffer E}
    (hv : view h0 r = some b) (n : Int) :
    ∀ (fuel i : Nat) (outArr : List E),
      readNewLoopMem r n h0.length fuel i (h0 ++ [outArr]) =
        (readNewLoop b n fuel i outArr).map fun o => h0 ++ [o] := by
  obtain ⟨hlt, harr, -, hp, hc, -⟩ := view_eq_some hv
  intro fuel
  induction fuel with
  | zero =>
    intro i outArr
    simp only [readNewLoopMem, readNewLoop, hc]
    split <;> rfl
  | succ fuel ih =>
    intro i outArr
    simp only [readNewLoopMem, readNewLoop, hc, hp]
    split
    · cases goRem (r.currentSize + r.currentPos - 1 - (i : Int)) r.currentSize with
      | none => rfl
      | some idx =>
        simp only [Option.some_bind, Option.bind_eq_bind, memGet_buffer hv]
        cases sliceGet b.buffer idx with
        | none => rfl
        | some x =>
          simp only [Option.some_bind, memSet_last]
          cases sliceSet outArr i x with
          | none => rfl
          | some arr2 => simpa using ih (i + 1) arr2
    · rfl

theorem readOldLoopMem_eq {h0 : List (List E)} {r : Receiver} {b : RVBuffer E}
    (hv : view h0 r = some b) (n : Int) :
    ∀ (fuel i : Nat) (outArr : List E),
      readOldLoopMem r n h0.length fuel i (h0 ++ [outArr]) =
        (readOldLoop b n fuel i outArr).map fun o => h0 ++ [o] := by
  obtain ⟨hlt, harr, -, hp, hc, -⟩ := view_eq_some hv
  intro fuel
  induction fuel with
  | zero =>
    intro i outArr
    simp only [readOldLoopMem, readOldLoop, hc]
    split <;> rfl
  | succ fuel ih =>
    intro i outArr
    simp only [readOldLoopMem, readOldLoop, hc, hp]
    split
    · cases goRem (r.currentPos + (i : Int)) r.currentSize with
      | none => rfl
      | some idx =>
        simp only [Option.some_bind, Option.bind_eq_bind, memGet_buffer hv]
        cases sliceGet b.buffer idx with
        | none => rfl
        | some x =>
          simp only [Option.some_bind, memSet_last]
          cases sliceSet outArr i x with
          | none => rfl
          | some arr2 => simpa using ih (i + 1) arr2
    · rfl

theorem readNewMem_eq [Inhabited E] {h : List (List E)} {r : Receiver} {b : RVBuffer E}
    (hv : view h r = some b) (n : Int) :
    ReadNewMem h r n = (ReadNew b n).map fun out => (out, h ++ [out], r) := by
  have hc := (view_eq_some hv).2.2.2.2.1
  have hc2 : (rLock r).currentSize = b.currentSize := hc.symm
  unfold ReadNewMem ReadNew
  rw [hc2, memMake, makeSlice]
  split
  · rfl
  · simp only [Option.some_bind, Option.bind_eq_bind,
      readNewLoopMem_eq (r := rLock r) (by rw [view_rLock]; exact hv), rUnlock_rLock]
    cases readNewLoop b n (min n b.currentSize).toNat 0
      (List.replicate (min n b.currentSize).toNat default) with
    | none => rfl
    | some o => simp

theorem readOldMem_eq [Inhabited E] {h : List (List E)} {r : Receiver} {b : RVBuffer E}
    (hv : view h r = some b) (n : Int) :
    ReadOldMem h r n = (ReadOld b n).map fun out => (out, h ++ [out], r) := by
  have hc := (view_eq_some hv).2.2.2.2.1
  have hc2 : (rLock r).currentSize = b.currentSize := hc.symm
  unfold ReadOldMem ReadOld
  rw [hc2, memMake, makeSlice]
  split
  · rfl
  · simp only [Option.some_bind, Option.bind_eq_bind,
      readOldLoopMem_eq (r := rLock r) (by rw [view_rLock]; exact hv), rUnlock_rLock]
    cases readOldLoop b n (min n b.currentSize).toNat 0
      (List.replicate (min n b.currentSize).toNat default) with
    | none => rfl
    | some o => simp

theorem take_succ_set (l : List E) (n : Nat) (x : E) (h : n < l.length) :
    (l.set n x).take (n + 1) = l.take n ++ [x] := by
  rw [List.take_succ, List.set_take, List.getElem?_set_self h]
  simp only [Option.toList]
  congr 1
  apply List.ext_getElem?
  intro j
  rw [List.getElem?_set]
  split
  · next hj => subst hj; simp
  · rfl

theorem readCheckpointLoop_length_le (b : RVBuffer E) (start o M : Int) :
    ∀ (fuel i : Nat) (out : List E) (rc : Int) (p : List E × Int),
      readCheckpointLoop b start o M fuel i out rc = some p → out.length ≤ p.1.length := by
  intro fuel
  induction fuel with
  | zero =>
    intro i out rc p hp
    rw [readCheckpointLoop] at hp
    split at hp
    · exact absurd hp (by simp)
    · simp only [Option.some.injEq] at hp
      rw [← hp]
  | succ fuel ih =>
    intro i out rc p hp
    rw [readCheckpointLoop] at hp
    split at hp
    · simp only at hp
      split at hp
      · exact ih _ _ _ _ hp
      · cases hg : goRem (start - (i : Int)) b.size with
        | none => rw [hg] at hp; exact absurd hp (by simp)
        | some idx =>
          rw [hg] at hp
          simp only [Option.bind_eq_bind, Option.some_bind] at hp
          cases hs : sliceGet b.buffer idx with
          | none => rw [hs] at hp; exact absurd hp (by simp)
          | some x =>
            rw [hs] at hp
            simp only [Option.some_bind] at hp
            have := ih _ _ _ _ hp
            simp only [List.length_append, List.length_singleton] at this
            omega
    · simp only [Option.some.injEq] at hp
      rw [← hp]

theorem readCheckpointLoopMem_eq {h0 : List (List E)} {r : Receiver} {b : RVBuffer E}
    (hv : view h0 r = some b) (start o M : Int) :
    ∀ (fuel i : Nat) (outArr : List E) (len : Nat) (rc : Int), len + fuel ≤ outArr.length →
      readCheckpointLoopMem r start o M fuel i (h0 ++ [outArr]) h0.length len rc =
        (readCheckpointLoop b start o M fuel i (outArr.take len) rc).map fun p =>
          (h0 ++ [p.1 ++ outArr.drop p.1.length], h0.length, p.1.length, p.2) := by
  have hsz := (view_eq_some hv).2.2.1
  intro fuel
  induction fuel with
  | zero =>
    intro i outArr len rc hlen
    simp only [readCheckpointLoopMem, readCheckpointLoop]
    split
    · rfl
    · have hl : (outArr.take len).length = len := by
        rw [List.length_take]
        omega
      simp only [Option.map_some', hl, List.take_append_drop]
  | succ fuel ih =>
    intro i outArr len rc hlen
    simp only [readCheckpointLoopMem, readCheckpointLoop]
    split
    · split
      · exact ih (i + 1) outArr len (rc + 1) (by omega)
      · rw [hsz]
        cases goRem (start - (i : Int)) r.size with
        | none => rfl
        | some idx =>
          simp only [Option.some_bind, Option.bind_eq_bind, memGet_buffer hv]
          cases sliceGet b.buffer idx with
          | none => rfl
          | some x =>
            simp only [Option.some_bind, memAppend_last h0 outArr len x (by omega)]
            rw [ih (i + 1) (outArr.set len x) (len + 1) rc (by
              rw [List.length_set]
              omega), take_succ_set _ _ _ (by omega)]
            apply Option.map_congr
            intro p hp
            have hle := readCheckpointLoop_length_le b start o M fuel (i + 1) _ rc p hp
            simp only [List.length_append, List.length_singleton, List.length_take] at hle
            rw [List.drop_set_of_lt x outArr (by omega)]
    · have hl : (outArr.take len).length = len := by
        rw [List.length_take]
        omega
      simp only [Option.map_some', hl, List.take_append_drop]

theorem readNewFromCheckpointMem_eq [Inhabited E] {h : List (List E)} {r : Receiver}
    {b : RVBuffer E} (hv : view h r = some b) (checkpoint : Checkpoint) (skip n : Int) :
    ∃ ext : List E × Missing → List (List E),
      ReadNewFromCheckpointMem h r checkpoint skip n =
        (ReadNewFromCheckpoint b checkpoint skip n).map fun p => (p, h ++ ext p, r) := by
  obtain ⟨-, -, hsz, hp, hc, hr⟩ := view_eq_some hv
  obtain ⟨M, hM⟩ : ∃ M : Int, M = min n (max 0
      ((if checkpoint.rotation = 0 then checkpoint.pos else b.size) - skip)) := ⟨_, rfl⟩
  refine ⟨fun p => [p.1 ++ (List.replicate M.toNat default).drop p.1.length], ?_⟩
  unfold ReadNewFromCheckpointMem ReadNewFromCheckpoint
  simp only [rLock, ← hsz, ← hp, ← hc, ← hr, ← hM, memMake]
  split
  · rfl
  · simp only [Option.some_bind, Option.bind_eq_bind]
    have hr2 : view h { r with readers := r.readers + 1 } = some b := hv
    have key := readCheckpointLoopMem_eq hr2
      (checkpoint.rotation * b.size + checkpoint.pos - 1 - skip)
      (b.currentRotation * b.size + b.currentPos - b.currentSize) M M.toNat 0
      (List.replicate M.toNat default) 0 0 (by simp)
    simp only [hsz, hp, hc, hr] at key ⊢
    rw [key]
    simp only [List.take_zero]
    cases readCheckpointLoop b
      (checkpoint.rotation * r.size + checkpoint.pos - 1 - skip)
      (r.currentRotation * r.size + r.currentPos - r.currentSize) M M.toNat 0 [] 0 with
    | none => rfl
    | some p =>
      have hu : rUnlock { r with readers := r.readers + 1 } = some r := rUnlock_rLock r
      simp [hu]

theorem runRead_eq [Inhabited E] {h : List (List E)} {r : Receiver} {b : RVBuffer E}
    (hv : view h r = some b) (c : ReadCall) :
    ∃ ext : ReadResult E → List (List E),
      runRead h r c = (readValue b c).map fun res => (res, h ++ ext res, r) := by
  obtain ⟨-, -, hsz, hp, hc, hr⟩ := view_eq_some hv
  cases c with
  | readNew n =>
    refine ⟨fun res => match res with
      | .items out => [out]
      | _ => [], ?_⟩
    simp only [runRead, readValue, readNewMem_eq hv, Option.map_map]
    rfl
  | readOld n =>
    refine ⟨fun res => match res with
      | .items out => [out]
      | _ => [], ?_⟩
    simp only [runRead, readValue, readOldMem_eq hv, Option.map_map]
    rfl
  | readNewFromCheckpoint checkpoint skip n =>
    obtain ⟨ext, he⟩ := readNewFromCheckpointMem_eq hv checkpoint skip n
    refine ⟨fun res => match res with
      | .itemsMissing out missing => ext (out, missing)
      | _ => [], ?_⟩
    simp only [runRead, readValue, he, Option.map_map]
    rfl
  | getCheckpoint =>
    refine ⟨fun _ => [], ?_⟩
    simp only [runRead, readValue, GetCheckpointMem, rUnlock_rLock, Option.some_bind,
      Option.map_some', List.append_nil, GetCheckpoint]
    simp only [rLock, hp, hr]
  | newItemsSince checkpoint =>
    refine ⟨fun _ => [], ?_⟩
    simp only [runRead, readValue, NewItemsSinceMem, rUnlock_rLock, Option.some_bind,
      Option.map_some', List.append_nil, NewItemsSince, rLock, hp, hr, hsz]
    split <;> rfl

theorem runRead_unchanged [Inhabited E] {h : List (List E)} {r : Receiver} {b : RVBuffer E}
    (hv : view h r = some b) {c : ReadCall} {res : ReadResult E} {h1 : List (List E)}
    {r1 : Receiver} (hrun : runRead h r c = some (res, h1, r1)) :
    readValue b c = some res ∧ r1 = r ∧ view h1 r1 = some b := by
  obtain ⟨ext, he⟩ := runRead_eq hv c
  rw [he] at hrun
  cases hval : readValue b c with
  | none => rw [hval] at hrun; exact absurd hrun (by simp)
  | some v =>
    rw [hval] at hrun
    simp only [Option.map_some', Option.some.injEq, Prod.mk.injEq] at hrun
    obtain ⟨e1, e2, e3⟩ := hrun
    subst e1 e2 e3
    exact ⟨rfl, rfl, view_append hv _⟩

theorem runRead_of_value [Inhabited E] {h : List (List E)} {r : Receiver} {b : RVBuffer E}
    (hv : view h r = some b) {c : ReadCall} {res : ReadResult E}
    (hval : readValue b c = some res) :
    ∃ h1, runRead h r c = some (res, h1, r) ∧ view h1 r = some b := by
  obtain ⟨ext, he⟩ := runRead_eq hv c
  exact ⟨h ++ ext res, by rw [he, hval]; rfl, view_append hv _⟩

theorem runReadsMem_unchanged [Inhabited E] {b : RVBuffer E} (calls : List ReadCall) :
    ∀ (h : List (List E)) (r : Receiver) (results : List (ReadResult E)) (h1 : List (List E))
      (r1 : Receiver), view h r = some b → runReadsMem h r calls = some (results, h1, r1) →
      r1 = r ∧ view h1 r1 = some b := by
  induction calls with
  | nil =>
    intro h r results h1 r1 hv hrun
    simp only [runReadsMem, Option.some.injEq, Prod.mk.injEq] at hrun
    obtain ⟨-, e2, e3⟩ := hrun
    subst e2 e3
    exact ⟨rfl, hv⟩
  | cons c cs ih =>
    intro h r results h1 r1 hv hrun
    rw [runReadsMem] at hrun
    cases hstep : runRead h r c with
    | none => rw [hstep] at hrun; exact absurd hrun (by simp)
    | some p =>
      obtain ⟨res, h2, r2⟩ := p
      rw [hstep] at hrun
      simp only [Option.some_bind] at hrun
      obtain ⟨-, e2, hv2⟩ := runRead_unchanged hv hstep
      subst e2
      cases hrest : runReadsMem h2 r2 cs with
      | none => rw [hrest] at hrun; exact absurd hrun (by simp)
      | some q =>
        obtain ⟨rs, h3, r3⟩ := q
        rw [hrest] at hrun
        simp only [Option.map_some', Option.some.injEq, Prod.mk.injEq] at hrun
        obtain ⟨-, e5, e6⟩ := hrun
        subst e5 e6
        exact ih h2 r2 rs h3 r3 hv2 hrest

theorem readValue_total [Inhabited E] {b : RVBuffer E} (hb : Valid b) (c : ReadCall)
    (hc : callInDomain b c = true) : ∃ res : ReadResult E, readValue b c = some res := by
  cases c with
  | readNew n =>
    obtain ⟨out, ho, -⟩ := readNew_valid hb n (of_decide_eq_true hc)
    exact ⟨_, by rw [readValue, ho]; rfl⟩
  | readOld n =>
    obtain ⟨out, ho, -⟩ := readOld_valid hb n (of_decide_eq_true hc)
    exact ⟨_, by rw [readValue, ho]; rfl⟩
  | readNewFromCheckpoint cp skip n =>
    simp only [callInDomain, Bool.and_eq_true, decide_eq_true_eq] at hc
    obtain ⟨out, rc, ho, -⟩ := readNewFromCheckpoint_valid hb cp skip n hc.1.1.1.1.1
    exact ⟨_, by rw [readValue, ho]; rfl⟩
  | getCheckpoint => exact ⟨_, rfl⟩
  | newItemsSince cp => exact ⟨_, rfl⟩

/-! ## 64-bit arithmetic -/

theorem wrapInt64_of_fits {x : Int} (h : fitsInt64 x) : wrapInt64 x = x := by
  unfold fitsInt64 at h
  unfold wrapInt64
  omega

theorem newItemsSince64_eq (b : RVBuffer E) (checkpoint : Checkpoint)
    (h1 : fitsInt64 (b.currentRotation * b.size))
    (h2 : fitsInt64 (b.currentRotation * b.size + b.currentPos))
    (h3 : fitsInt64 (checkpoint.rotation * b.size))
    (h4 : fitsInt64 (checkpoint.rotation * b.size + checkpoint.pos))
    (h5 : fitsInt64 (b.currentRotation * b.size + b.currentPos -
      (checkpoint.rotation * b.size + checkpoint.pos))) :
    NewItemsSince64 b checkpoint = NewItemsSince b checkpoint := by
  unfold NewItemsSince64 NewItemsSince
  simp only [wrapInt64_of_fits h1, wrapInt64_of_fits h2, wrapInt64_of_fits h3,
    wrapInt64_of_fits h4, wrapInt64_of_fits h5]

/-! ## Claims -/

/-- C1: in a buffer of capacity `S > 0` that received `k` items, then a checkpoint, then further
items (`t` in total, by any mix of `Push` and `PushMany`), `ReadNewFromCheckpoint(cp, skip, n)`
returns exactly the items `x_j` for `j = k-1-skip, ..., k-skip-M` with `j ≥ t - min(t,S)`, newest
first, where `M = min(n, max(0, min(k,S) - skip))`; every such `j` is a sequence number below `k`
and the element returned for it is the item pushed with that number. -/
theorem readNewFromCheckpoint_returns_requested [Inhabited E] (S : Nat) (hS : 0 < S)
    (ops1 ops2 : List (Op E)) (skip n : Nat) :
    ∃ (b0 b1 b2 : RVBuffer E) (out : List E) (missing : Missing),
      NewBuffer (S : Int) = some b0 ∧ runOps b0 ops1 = some b1 ∧ runOps b1 ops2 = some b2 ∧
      ReadNewFromCheckpoint b2 (GetCheckpoint b1) skip n = some (out, missing) ∧
      out.map some =
        ((requestedSeqs (pushedItems ops1).length skip
            (specMax S (pushedItems ops1).length skip n)).filter fun j =>
              decide (specOldest S (pushedItems ops1 ++ pushedItems ops2).length ≤ j)).map
          (nthPushed (pushedItems ops1 ++ pushedItems ops2)) ∧
      ∀ j ∈ (requestedSeqs (pushedItems ops1).length skip
            (specMax S (pushedItems ops1).length skip n)).filter fun j =>
              decide (specOldest S (pushedItems ops1 ++ pushedItems ops2).length ≤ j),
        0 ≤ j ∧ j < ((pushedItems ops1).length : Int) ∧
          ∃ x, nthPushed (pushedItems ops1) j = some x ∧ x ∈ out := by
  obtain ⟨b0, b1, b2, h0, h1, h2, ht1, ht2⟩ := reach_tracks_two hS ops1 ops2
  have hread := readNewFromCheckpoint_tracks hS ht1 ht2 (by simp) skip n
  have ho0 : 0 ≤ specOldest S (pushedItems ops1 ++ pushedItems ops2).length := by
    unfold specOldest
    omega
  have hmem : ∀ j ∈ (requestedSeqs (pushedItems ops1).length skip
      (specMax S (pushedItems ops1).length skip n)).filter fun j =>
        decide (specOldest S (pushedItems ops1 ++ pushedItems ops2).length ≤ j),
      0 ≤ j ∧ j < ((pushedItems ops1).length : Int) := by
    intro j hj
    rw [List.mem_filter, requestedSeqs, List.mem_map] at hj
    obtain ⟨⟨i, -, rfl⟩, hj2⟩ := hj
    have := of_decide_eq_true hj2
    omega
  have hout : List.map some (((List.range (specMax S (pushedItems ops1).length skip n).toNat).filter
      fun (i : Nat) => decide (specOldest S (pushedItems ops1 ++ pushedItems ops2).length ≤
        ((pushedItems ops1).length : Int) - 1 - skip - i)).map
      (fun (i : Nat) => (pushedItems ops1 ++ pushedItems ops2).getD
        (((pushedItems ops1).length : Int) - 1 - skip - i).toNat default)) =
      ((requestedSeqs (pushedItems ops1).length skip
        (specMax S (pushedItems ops1).length skip n)).filter fun j =>
          decide (specOldest S (pushedItems ops1 ++ pushedItems ops2).length ≤ j)).map
        (nthPushed (pushedItems ops1 ++ pushedItems ops2)) := by
    rw [requestedSeqs, List.filter_map, List.map_map, List.map_map]
    apply List.map_congr_left
    intro i hi
    rw [List.mem_filter] at hi
    have h3 := of_decide_eq_true hi.2
    have h4 : (0 : Int) ≤ ((pushedItems ops1).length : Int) - 1 - skip - i := by omega
    simp only [Function.comp, nthPushed, if_pos h4]
    symm
    apply getElem?_eq_some_getD
    rw [List.length_append]
    omega
  refine ⟨b0, b1, b2, _, _, h0, h1, h2, hread, hout, ?_⟩
  intro j hj
  obtain ⟨hj0, hjk⟩ := hmem j hj
  refine ⟨hj0, hjk, ?_⟩
  have h5 : nthPushed (pushedItems ops1 ++ pushedItems ops2) j ∈
      List.map some (((List.range (specMax S (pushedItems ops1).length skip n).toNat).filter
      fun (i : Nat) => decide (specOldest S (pushedItems ops1 ++ pushedItems ops2).length ≤
        ((pushedItems ops1).length : Int) - 1 - skip - i)).map
      (fun (i : Nat) => (pushedItems ops1 ++ pushedItems ops2).getD
        (((pushedItems ops1).length : Int) - 1 - skip - i).toNat default)) := by
    rw [hout]
    exact List.mem_map_of_mem _ hj
  rw [List.mem_map] at h5
  obtain ⟨x, hx, hx2⟩ := h5
  refine ⟨x, ?_, hx⟩
  rw [nthPushed, if_pos hj0] at hx2 ⊢
  rw [List.getElem?_append_left (by omega)] at hx2
  exact hx2.symm

/-- C1, instance: capacity 4, items `1, 2, 3` pushed, checkpoint, items `4, 5` pushed, read with
`skip = 0`, `n = 4`. -/
theorem readNewFromCheckpoint_returns_requested_witness :
    0 < 4 ∧
    ∃ (b0 b1 b2 : RVBuffer Int) (out : List Int) (missing : Missing),
      NewBuffer ((4 : Nat) : Int) = some b0 ∧
      runOps b0 [Op.push 1, Op.pushMany [2, 3]] = some b1 ∧
      runOps b1 [Op.pushMany [4], Op.push 5] = some b2 ∧
      ReadNewFromCheckpoint b2 (GetCheckpoint b1) (0 : Nat) (4 : Nat) = some (out, missing) ∧
      out.map some =
        ((requestedSeqs (pushedItems [Op.push (1 : Int), Op.pushMany [2, 3]]).length (0 : Nat)
            (specMax (4 : Nat) (pushedItems [Op.push (1 : Int), Op.pushMany [2, 3]]).length
              (0 : Nat) (4 : Nat))).filter fun j =>
              decide (specOldest (4 : Nat) (pushedItems [Op.push (1 : Int), Op.pushMany [2, 3]] ++
                pushedItems [Op.pushMany [4], Op.push 5]).length ≤ j)).map
          (nthPushed (pushedItems [Op.push (1 : Int), Op.pushMany [2, 3]] ++
            pushedItems [Op.pushMany [4], Op.push 5])) ∧
      ∀ j ∈ (requestedSeqs (pushedItems [Op.push (1 : Int), Op.pushMany [2, 3]]).length (0 : Nat)
            (specMax (4 : Nat) (pushedItems [Op.push (1 : Int), Op.pushMany [2, 3]]).length
              (0 : Nat) (4 : Nat))).filter fun j =>
              decide (specOldest (4 : Nat) (pushedItems [Op.push (1 : Int), Op.pushMany [2, 3]] ++
                pushedItems [Op.pushMany [4], Op.push 5]).length ≤ j),
        0 ≤ j ∧ j < ((pushedItems [Op.push (1 : Int), Op.pushMany [2, 3]]).length : Int) ∧
          ∃ x, nthPushed (pushedItems [Op.push (1 : Int), Op.pushMany [2, 3]]) j = some x ∧ x ∈ out :=
  ⟨by decide, readNewFromCheckpoint_returns_requested 4 (by decide) _ _ 0 4⟩

/-- C2: in the setting of C1 the `Missing` value has `Max = min(n, max(0, min(k,S) - skip))` and
`Reused` = the number of requested sequence numbers `j` in `k-skip-Max .. k-1-skip` with
`j < t - min(t,S)`. -/
theorem readNewFromCheckpoint_missing [Inhabited E] (S : Nat) (hS : 0 < S)
    (ops1 ops2 : List (Op E)) (skip n : Nat) :
    ∃ (b0 b1 b2 : RVBuffer E) (out : List E) (missing : Missing),
      NewBuffer (S : Int) = some b0 ∧ runOps b0 ops1 = some b1 ∧ runOps b1 ops2 = some b2 ∧
      ReadNewFromCheckpoint b2 (GetCheckpoint b1) skip n = some (out, missing) ∧
      missing.Max = specMax S (pushedItems ops1).length skip n ∧
      missing.Reused =
        (((requestedSeqs (pushedItems ops1).length skip missing.Max).filter fun j =>
          decide (j < specOldest S (pushedItems ops1 ++ pushedItems ops2).length)).length : Int) := by
  obtain ⟨b0, b1, b2, h0, h1, h2, ht1, ht2⟩ := reach_tracks_two hS ops1 ops2
  have hread := readNewFromCheckpoint_tracks hS ht1 ht2 (by simp) skip n
  refine ⟨b0, b1, b2, _, _, h0, h1, h2, hread, rfl, ?_⟩
  simp only [requestedSeqs, List.filter_map, List.length_map]
  rfl

/-- C2, instance: capacity 4, items `1, 2, 3` pushed, checkpoint, items `4, 5` pushed, read with
`skip = 0`, `n = 4`. -/
theorem readNewFromCheckpoint_missing_witness :
    0 < 4 ∧
    ∃ (b0 b1 b2 : RVBuffer Int) (out : List Int) (missing : Missing),
      NewBuffer ((4 : Nat) : Int) = some b0 ∧
      runOps b0 [Op.push 1, Op.pushMany [2, 3]] = some b1 ∧
      runOps b1 [Op.pushMany [4], Op.push 5] = some b2 ∧
      ReadNewFromCheckpoint b2 (GetCheckpoint b1) (0 : Nat) (4 : Nat) = some (out, missing) ∧
      missing.Max = specMax (4 : Nat) (pushedItems [Op.push (1 : Int), Op.pushMany [2, 3]]).length
        (0 : Nat) (4 : Nat) ∧
      missing.Reused =
        (((requestedSeqs (pushedItems [Op.push (1 : Int), Op.pushMany [2, 3]]).length (0 : Nat)
            missing.Max).filter fun j =>
          decide (j < specOldest (4 : Nat) (pushedItems [Op.push (1 : Int), Op.pushMany [2, 3]] ++
            pushedItems [Op.pushMany [4], Op.push 5]).length)).length : Int) :=
  ⟨by decide, readNewFromCheckpoint_missing 4 (by decide) _ _ 0 4⟩

/-- C3: for every buffer state of capacity `S > 0` (cursor invariant `Valid`), every checkpoint
value, every `skip` and every `n ≥ 0`, `ReadNewFromCheckpoint` returns a result `(out, missing)`
with `len(out) + missing.Reused == missing.Max`. -/
theorem readNewFromCheckpoint_length_add_reused (b : RVBuffer E) (hb : Valid b)
    (checkpoint : Checkpoint) (skip n : Int) (hn : 0 ≤ n) :
    ∃ (out : List E) (missing : Missing),
      ReadNewFromCheckpoint b checkpoint skip n = some (out, missing) ∧
      (out.length : Int) + missing.Reused = missing.Max := by
  have hb2 := hb
  obtain ⟨hs, hlen, hp0, hp1, hc0, hc1, hr0, hz, hnz⟩ := hb2
  have ho : 0 ≤ b.currentRotation * b.size + b.currentPos - b.currentSize := by
    by_cases h0 : b.currentRotation = 0
    · have := hz h0
      rw [h0]
      omega
    · have h1 : 1 ≤ b.currentRotation := by omega
      have h2 := hnz h1
      have h3 : 1 * b.size ≤ b.currentRotation * b.size :=
        Int.mul_le_mul_of_nonneg_right h1 (by omega)
      omega
  obtain ⟨M, hM⟩ : ∃ M : Int, M = min n (max 0
      ((if checkpoint.rotation = 0 then checkpoint.pos else b.size) - skip)) := ⟨_, rfl⟩
  have hM0 : 0 ≤ M := by omega
  obtain ⟨out2, r2, h1, h2⟩ := readCheckpointLoop_length b
    (checkpoint.rotation * b.size + checkpoint.pos - 1 - skip)
    (b.currentRotation * b.size + b.currentPos - b.currentSize) M
    (fun target ht => valid_lookup hb target (by omega)) M.toNat 0 [] 0 (by
      rw [Nat.zero_add]
      exact Int.toNat_of_nonneg hM0)
  refine ⟨out2, { Reused := r2, Max := M }, ?_, ?_⟩
  · unfold ReadNewFromCheckpoint
    simp only [← hM, if_neg (not_lt.mpr hM0), h1]
    rfl
  · simp only [h2, List.length_nil]
    rw [Int.toNat_of_nonneg hM0]
    simp

/-- C3, instance: a full buffer of capacity 3 that wrapped once, read through a checkpoint that
does not come from it, with a negative `skip`. -/
theorem readNewFromCheckpoint_length_add_reused_witness :
    Valid exampleWrapped ∧ (0 : Int) ≤ 5 ∧
    ∃ (out : List Int) (missing : Missing),
      ReadNewFromCheckpoint exampleWrapped { rotation := 7, pos := 1 } (-2) 5 =
        some (out, missing) ∧
      (out.length : Int) + missing.Reused = missing.Max :=
  ⟨by unfold Valid; decide, by decide,
   readNewFromCheckpoint_length_add_reused _ (by unfold Valid; decide) _ _ _ (by decide)⟩

/-- C4: in a buffer of capacity `S > 0`, if a checkpoint is taken and exactly `m` items are pushed
afterwards (by `Push` or `PushMany`), then `NewItemsSince(cp) == m`, whatever `m` is (it is not
capped by `S`). -/
theorem newItemsSince_counts_pushes [Inhabited E] (S : Nat) (hS : 0 < S)
    (ops1 ops2 : List (Op E)) :
    ∃ (b0 b1 b2 : RVBuffer E),
      NewBuffer (S : Int) = some b0 ∧ runOps b0 ops1 = some b1 ∧ runOps b1 ops2 = some b2 ∧
      NewItemsSince b2 (GetCheckpoint b1) = ((pushedItems ops2).length : Int) := by
  obtain ⟨b0, b1, b2, h0, h1, h2, ht1, ht2⟩ := reach_tracks_two hS ops1 ops2
  refine ⟨b0, b1, b2, h0, h1, h2, ?_⟩
  have hcur : b2.currentRotation * (S : Int) + b2.currentPos =
      ((pushedItems ops1 ++ pushedItems ops2).length : Int) := by
    have := tracks_abs ht2
    rwa [absSeq, ht2.size_eq] at this
  have hcp : b1.currentRotation * (S : Int) + b1.currentPos = ((pushedItems ops1).length : Int) := by
    have := tracks_abs ht1
    rwa [absSeq, ht1.size_eq] at this
  simp only [NewItemsSince, GetCheckpoint, ht2.size_eq, hcur, hcp, List.length_append]
  split
  · omega
  · push_cast
    omega

/-- C4, instance: capacity 2, one item before the checkpoint and five after it. -/
theorem newItemsSince_counts_pushes_witness :
    0 < 2 ∧
    ∃ (b0 b1 b2 : RVBuffer Int),
      NewBuffer ((2 : Nat) : Int) = some b0 ∧ runOps b0 [Op.push 1] = some b1 ∧
      runOps b1 [Op.pushMany [2, 3, 4], Op.push 5, Op.push 6] = some b2 ∧
      NewItemsSince b2 (GetCheckpoint b1) =
        ((pushedItems [Op.pushMany [2, 3, 4], Op.push (5 : Int), Op.push 6]).length : Int) :=
  ⟨by decide, newItemsSince_counts_pushes 2 (by decide) _ _⟩

/-- C5: after items `x_0 .. x_{k-1}` have been pushed into `NewBuffer(S)`, `S > 0`, `ReadNew(n)`
returns `[x_{k-1}, ..., x_{k-r}]` with `r = min(n, k, S)`: the `r` newest items, newest first;
its length is `r = min(n, currentSize)`. -/
theorem readNew_returns_newest [Inhabited E] (S : Nat) (hS : 0 < S) (ops : List (Op E))
    (n : Nat) :
    ∃ (b0 b : RVBuffer E) (out : List E),
      NewBuffer (S : Int) = some b0 ∧ runOps b0 ops = some b ∧ ReadNew b n = some out ∧
      out = (pushedItems ops).reverse.take (min n (min (pushedItems ops).length S)) ∧
      out.length = min n (min (pushedItems ops).length S) ∧
      (out.length : Int) = min (n : Int) (GetCurrentSIze b) ∧
      ∀ i, i < out.length → out[i]? = (pushedItems ops)[(pushedItems ops).length - 1 - i]? := by
  obtain ⟨b0, b, h0, h1, ht⟩ := reach_tracks hS ops
  have hread := readNew_tracks ht n
  rw [newest_eq_reverse_take _ _ (by omega)] at hread
  have hlen : ((pushedItems ops).reverse.take (min n (min (pushedItems ops).length S))).length =
      min n (min (pushedItems ops).length S) := by
    rw [List.length_take, List.length_reverse]
    omega
  refine ⟨b0, b, _, h0, h1, hread, rfl, hlen, ?_, ?_⟩
  · rw [hlen, GetCurrentSIze, ht.csize_eq]
    omega
  · intro i hi
    rw [hlen] at hi
    rw [List.getElem?_take_of_lt hi, List.getElem?_reverse (by omega)]

/-- C5, instance: capacity 4, six items pushed, `ReadNew(4)`. -/
theorem readNew_returns_newest_witness :
    0 < 4 ∧
    ∃ (b0 b : RVBuffer Int) (out : List Int),
      NewBuffer ((4 : Nat) : Int) = some b0 ∧
      runOps b0 [Op.pushMany [1, 2], Op.push 3, Op.pushMany [4, 5, 6]] = some b ∧
      ReadNew b (4 : Nat) = some out ∧
      out = (pushedItems [Op.pushMany [1, 2], Op.push (3 : Int), Op.pushMany [4, 5, 6]]).reverse.take
        (min 4 (min (pushedItems [Op.pushMany [1, 2], Op.push (3 : Int),
          Op.pushMany [4, 5, 6]]).length 4)) ∧
      out.length = min 4 (min (pushedItems [Op.pushMany [1, 2], Op.push (3 : Int),
          Op.pushMany [4, 5, 6]]).length 4) ∧
      (out.length : Int) = min ((4 : Nat) : Int) (GetCurrentSIze b) ∧
      ∀ i, i < out.length → out[i]? =
        (pushedItems [Op.pushMany [1, 2], Op.push (3 : Int), Op.pushMany [4, 5, 6]])[
          (pushedItems [Op.pushMany [1, 2], Op.push (3 : Int), Op.pushMany [4, 5, 6]]).length
            - 1 - i]? :=
  ⟨by decide, readNew_returns_newest 4 (by decide) _ 4⟩

/-- C6: after items `x_0 .. x_{k-1}` have been pushed into `NewBuffer(S)`, `S > 0`, `ReadOld(n)`
returns `[x_{k-c}, ..., x_{k-c+r-1}]` with `c = min(k, S)` and `r = min(n, c)`: the `r` oldest
retained items, oldest first. -/
theorem readOld_returns_oldest [Inhabited E] (S : Nat) (hS : 0 < S) (ops : List (Op E))
    (n : Nat) :
    ∃ (b0 b : RVBuffer E) (out : List E),
      NewBuffer (S : Int) = some b0 ∧ runOps b0 ops = some b ∧ ReadOld b n = some out ∧
      out = ((pushedItems ops).drop ((pushedItems ops).length - min (pushedItems ops).length S)).take
        (min n (min (pushedItems ops).length S)) ∧
      out.length = min n (min (pushedItems ops).length S) ∧
      ∀ i, i < out.length → out[i]? =
        (pushedItems ops)[(pushedItems ops).length - min (pushedItems ops).length S + i]? := by
  obtain ⟨b0, b, h0, h1, ht⟩ := reach_tracks hS ops
  have hread := readOld_tracks ht n
  rw [oldest_eq_drop_take _ _ _ (by omega)] at hread
  have hlen : (((pushedItems ops).drop
      ((pushedItems ops).length - min (pushedItems ops).length S)).take
        (min n (min (pushedItems ops).length S))).length =
      min n (min (pushedItems ops).length S) := by
    rw [List.length_take, List.length_drop]
    omega
  refine ⟨b0, b, _, h0, h1, hread, rfl, hlen, ?_⟩
  intro i hi
  rw [hlen] at hi
  rw [List.getElem?_take_of_lt hi, List.getElem?_drop]

/-- C6, instance: capacity 4, six items pushed, `ReadOld(3)`. -/
theorem readOld_returns_oldest_witness :
    0 < 4 ∧
    ∃ (b0 b : RVBuffer Int) (out : List Int),
      NewBuffer ((4 : Nat) : Int) = some b0 ∧
      runOps b0 [Op.pushMany [1, 2], Op.push 3, Op.pushMany [4, 5, 6]] = some b ∧
      ReadOld b (3 : Nat) = some out ∧
      out = ((pushedItems [Op.pushMany [1, 2], Op.push (3 : Int), Op.pushMany [4, 5, 6]]).drop
        ((pushedItems [Op.pushMany [1, 2], Op.push (3 : Int), Op.pushMany [4, 5, 6]]).length -
          min (pushedItems [Op.pushMany [1, 2], Op.push (3 : Int),
            Op.pushMany [4, 5, 6]]).length 4)).take
        (min 3 (min (pushedItems [Op.pushMany [1, 2], Op.push (3 : Int),
          Op.pushMany [4, 5, 6]]).length 4)) ∧
      out.length = min 3 (min (pushedItems [Op.pushMany [1, 2], Op.push (3 : Int),
          Op.pushMany [4, 5, 6]]).length 4) ∧
      ∀ i, i < out.length → out[i]? =
        (pushedItems [Op.pushMany [1, 2], Op.push (3 : Int), Op.pushMany [4, 5, 6]])[
          (pushedItems [Op.pushMany [1, 2], Op.push (3 : Int), Op.pushMany [4, 5, 6]]).length -
            min (pushedItems [Op.pushMany [1, 2], Op.push (3 : Int),
              Op.pushMany [4, 5, 6]]).length 4 + i]? :=
  ⟨by decide, readOld_returns_oldest 4 (by decide) _ 3⟩

/-- C7: after exactly `k` items have been pushed into `NewBuffer(S)`, `S > 0`,
`GetCurrentSIze()` returns `min(k, S)`: `k` while `k ≤ S`, and `S` for every `k ≥ S`. -/
theorem getCurrentSIze_eq_min [Inhabited E] (S : Nat) (hS : 0 < S) (ops : List (Op E)) :
    ∃ (b0 b : RVBuffer E),
      NewBuffer (S : Int) = some b0 ∧ runOps b0 ops = some b ∧
      GetCurrentSIze b = ((min (pushedItems ops).length S : Nat) : Int) ∧
      ((pushedItems ops).length ≤ S → GetCurrentSIze b = ((pushedItems ops).length : Int)) ∧
      (S ≤ (pushedItems ops).length → GetCurrentSIze b = (S : Int)) := by
  obtain ⟨b0, b, h0, h1, ht⟩ := reach_tracks hS ops
  refine ⟨b0, b, h0, h1, ht.csize_eq, ?_, ?_⟩
  · intro hk
    rw [GetCurrentSIze, ht.csize_eq, Nat.min_eq_left hk]
  · intro hk
    rw [GetCurrentSIze, ht.csize_eq, Nat.min_eq_right hk]

/-- C7, instance: capacity 3, five items pushed. -/
theorem getCurrentSIze_eq_min_witness :
    0 < 3 ∧
    ∃ (b0 b : RVBuffer Int),
      NewBuffer ((3 : Nat) : Int) = some b0 ∧
      runOps b0 [Op.pushMany [1, 2, 3, 4], Op.push 5] = some b ∧
      GetCurrentSIze b =
        ((min (pushedItems [Op.pushMany [1, 2, 3, 4], Op.push (5 : Int)]).length 3 : Nat) : Int) ∧
      ((pushedItems [Op.pushMany [1, 2, 3, 4], Op.push (5 : Int)]).length ≤ 3 →
        GetCurrentSIze b =
          ((pushedItems [Op.pushMany [1, 2, 3, 4], Op.push (5 : Int)]).length : Int)) ∧
      (3 ≤ (pushedItems [Op.pushMany [1, 2, 3, 4], Op.push (5 : Int)]).length →
        GetCurrentSIze b = ((3 : Nat) : Int)) :=
  ⟨by decide, getCurrentSIze_eq_min 3 (by decide) _⟩

/-- C8: for every sequence of at most `S` pushes into `NewBuffer(S)`, `S > 0`, the reverse of
`ReadOld(S)` equals `ReadNew(S)`. -/
theorem readOld_reverse_eq_readNew [Inhabited E] (S : Nat) (hS : 0 < S) (ops : List (Op E))
    (hk : (pushedItems ops).length ≤ S) :
    ∃ (b0 b : RVBuffer E) (old new : List E),
      NewBuffer (S : Int) = some b0 ∧ runOps b0 ops = some b ∧
      ReadOld b S = some old ∧ ReadNew b S = some new ∧ old.reverse = new := by
  obtain ⟨b0, b, h0, h1, ht⟩ := reach_tracks hS ops
  have hnew := readNew_tracks ht S
  have hold := readOld_tracks ht S
  rw [newest_eq_reverse_take _ _ (by omega)] at hnew
  rw [oldest_eq_drop_take _ _ _ (by omega)] at hold
  refine ⟨b0, b, _, _, h0, h1, hold, hnew, ?_⟩
  have hc : min S (min (pushedItems ops).length S) = (pushedItems ops).length := by omega
  have hd : (pushedItems ops).length - min (pushedItems ops).length S = 0 := by omega
  rw [hc, hd, List.drop_zero, List.take_of_length_le (le_refl _),
    List.take_of_length_le (by simp)]

/-- C8, instance: capacity 4, three items pushed. -/
theorem readOld_reverse_eq_readNew_witness :
    0 < 4 ∧ (pushedItems [Op.push (1 : Int), Op.pushMany [2, 3]]).length ≤ 4 ∧
    ∃ (b0 b : RVBuffer Int) (old new : List Int),
      NewBuffer ((4 : Nat) : Int) = some b0 ∧
      runOps b0 [Op.push 1, Op.pushMany [2, 3]] = some b ∧
      ReadOld b (4 : Nat) = some old ∧ ReadNew b (4 : Nat) = some new ∧ old.reverse = new :=
  ⟨by decide, by decide, readOld_reverse_eq_readNew 4 (by decide) _ (by decide)⟩

/-- C9: in a buffer of capacity `S > 0` the sequence number `currentRotation * S + currentPos`
is `k` after `k` pushes and grows by exactly 1 on every `Push`; that `Push` increments
`currentRotation` exactly when it wraps `currentPos` from `S-1` back to `0`, and leaves it unchanged
otherwise. -/
theorem push_increments_abs [Inhabited E] (S : Nat) (hS : 0 < S) (ops : List (Op E)) (x : E) :
    ∃ (b0 b b2 : RVBuffer E),
      NewBuffer (S : Int) = some b0 ∧ runOps b0 ops = some b ∧
      absSeq b = ((pushedItems ops).length : Int) ∧
      Push b x = some b2 ∧
      absSeq b2 = absSeq b + 1 ∧
      (b2.currentRotation = b.currentRotation + 1 ↔
        (b.currentPos = (S : Int) - 1 ∧ b2.currentPos = 0)) ∧
      (b2.currentRotation = b.currentRotation ∨ b2.currentRotation = b.currentRotation + 1) := by
  obtain ⟨b0, b, h0, h1, ht⟩ := reach_tracks hS ops
  obtain ⟨b2, h2, ht2⟩ := push_tracks hS ht x
  have ha := tracks_abs ht
  have ha2 := tracks_abs ht2
  have hlt : (pushedItems ops).length % S < S := Nat.mod_lt _ hS
  refine ⟨b0, b, b2, h0, h1, ha, h2, ?_, ?_, ?_⟩
  · rw [ha, ha2, List.length_append, List.length_singleton]
    push_cast
    rfl
  · rw [ht2.rot_eq, ht.rot_eq, ht.pos_eq, ht2.pos_eq, List.length_append, List.length_singleton]
    by_cases hw : (pushedItems ops).length % S + 1 = S
    · obtain ⟨e1, e2⟩ := succ_mod_div_wrap hw
      rw [e1, e2]
      constructor
      · intro _
        constructor
        · omega
        · rfl
      · intro _
        push_cast
        rfl
    · obtain ⟨e1, e2⟩ := succ_mod_div_step hS hw
      rw [e1, e2]
      constructor
      · intro h
        omega
      · intro h
        omega
  · rw [ht2.rot_eq, ht.rot_eq, List.length_append, List.length_singleton]
    by_cases hw : (pushedItems ops).length % S + 1 = S
    · right
      rw [(succ_mod_div_wrap hw).2]
      push_cast
      rfl
    · left
      rw [(succ_mod_div_step hS hw).2]

/-- C9, instance: capacity 3, two items pushed, then the push that wraps the cursor. -/
theorem push_increments_abs_witness :
    0 < 3 ∧
    ∃ (b0 b b2 : RVBuffer Int),
      NewBuffer ((3 : Nat) : Int) = some b0 ∧ runOps b0 [Op.pushMany [1, 2]] = some b ∧
      absSeq b = ((pushedItems [Op.pushMany [(1 : Int), 2]]).length : Int) ∧
      Push b 7 = some b2 ∧
      absSeq b2 = absSeq b + 1 ∧
      (b2.currentRotation = b.currentRotation + 1 ↔
        (b.currentPos = ((3 : Nat) : Int) - 1 ∧ b2.currentPos = 0)) ∧
      (b2.currentRotation = b.currentRotation ∨ b2.currentRotation = b.currentRotation + 1) :=
  ⟨by decide, push_increments_abs 3 (by decide) _ 7⟩

/-- C10: for every buffer state of capacity `S > 0` (cursor invariant `Valid`) and every list
`items`, `PushMany(items)` returns, and the state it leaves (storage, `currentPos`, `currentSize`,
`currentRotation`) is exactly the one reached by calling `Push` on each element in order;
`PushMany` of the empty list leaves the state unchanged. -/
theorem pushMany_refines_push (b : RVBuffer E) (hb : Valid b) (items : List E) :
    ∃ b2, PushMany b items = some b2 ∧ pushEach b items = some b2 ∧ Valid b2 ∧
      PushMany b [] = some b := by
  obtain ⟨b2, h2, hv2⟩ := pushEach_valid items b hb
  exact ⟨b2, by rw [pushMany_eq_pushEach, h2], h2, hv2, rfl⟩

/-- C10, instance: three items pushed into a full buffer of capacity 3. -/
theorem pushMany_refines_push_witness :
    Valid exampleWrapped ∧
    ∃ b2, PushMany exampleWrapped [6, 7, 8] = some b2 ∧ pushEach exampleWrapped [6, 7, 8] = some b2 ∧
      Valid b2 ∧ PushMany exampleWrapped [] = some exampleWrapped :=
  ⟨by unfold Valid; decide, pushMany_refines_push _ (by unfold Valid; decide) _⟩

/-- C11: `ReadNew`, `ReadOld`, `ReadNewFromCheckpoint`, `GetCheckpoint` and `NewItemsSince`, run
statement by statement over memory, leave the buffer state (storage, `currentPos`, `currentSize`,
`currentRotation`) unchanged: whenever such a call returns, the receiver is the one it started
with, its lock released, and it still stands for the same buffer state `b`, because the only
writes go to the newly allocated result slice; after any further reads the same call returns
the identical value.  On a valid state every call with arguments in the domain returns. -/
theorem reads_leave_state_unchanged [Inhabited E] (h : List (List E)) (r : Receiver)
    (b : RVBuffer E) (hview : view h r = some b) (c : ReadCall) :
    (∀ (res : ReadResult E) (h1 : List (List E)) (r1 : Receiver),
      runRead h r c = some (res, h1, r1) →
        view h1 r1 = some b ∧ r1 = r ∧
        ∀ (between : List ReadCall) (results : List (ReadResult E)) (h2 : List (List E))
          (r2 : Receiver), runReadsMem h1 r1 between = some (results, h2, r2) →
            view h2 r2 = some b ∧ r2 = r ∧
            ∃ (h3 : List (List E)) (r3 : Receiver),
              runRead h2 r2 c = some (res, h3, r3) ∧ view h3 r3 = some b ∧ r3 = r) ∧
    (Valid b → callInDomain b c = true →
      ∃ (res : ReadResult E) (h1 : List (List E)) (r1 : Receiver),
        runRead h r c = some (res, h1, r1)) := by
  constructor
  · intro res h1 r1 hrun
    obtain ⟨hval, e1, hv1⟩ := runRead_unchanged hview hrun
    refine ⟨hv1, e1, ?_⟩
    intro between results h2 r2 hbetween
    obtain ⟨e2, hv2⟩ := runReadsMem_unchanged between h1 r1 results h2 r2 hv1 hbetween
    obtain ⟨h3, hrun3, hv3⟩ := runRead_of_value hv2 hval
    exact ⟨hv2, e2.trans e1, h3, r2, hrun3, hv3, e2.trans e1⟩
  · intro hb hc
    obtain ⟨res, hval⟩ := readValue_total hb c hc
    obtain ⟨h1, hrun, -⟩ := runRead_of_value hview hval
    exact ⟨res, h1, r, hrun⟩

/-- C11, instance: a full buffer of capacity 3 stored at address 0, read through the checkpoint
taken one push earlier with `skip = 0`, `n = 3`. -/
theorem reads_leave_state_unchanged_witness :
    view exampleMemory exampleReceiver = some exampleWrapped ∧
    ((∀ (res : ReadResult Int) (h1 : List (List Int)) (r1 : Receiver),
      runRead exampleMemory exampleReceiver
          (ReadCall.readNewFromCheckpoint { rotation := 1, pos := 1 } 0 3) = some (res, h1, r1) →
        view h1 r1 = some exampleWrapped ∧ r1 = exampleReceiver ∧
        ∀ (between : List ReadCall) (results : List (ReadResult Int)) (h2 : List (List Int))
          (r2 : Receiver), runReadsMem h1 r1 between = some (results, h2, r2) →
            view h2 r2 = some exampleWrapped ∧ r2 = exampleReceiver ∧
            ∃ (h3 : List (List Int)) (r3 : Receiver),
              runRead h2 r2 (ReadCall.readNewFromCheckpoint { rotation := 1, pos := 1 } 0 3) =
                some (res, h3, r3) ∧ view h3 r3 = some exampleWrapped ∧ r3 = exampleReceiver) ∧
    (Valid exampleWrapped →
      callInDomain exampleWrapped
        (ReadCall.readNewFromCheckpoint { rotation := 1, pos := 1 } 0 3) = true →
      ∃ (res : ReadResult Int) (h1 : List (List Int)) (r1 : Receiver),
        runRead exampleMemory exampleReceiver
          (ReadCall.readNewFromCheckpoint { rotation := 1, pos := 1 } 0 3) =
            some (res, h1, r1))) :=
  ⟨by decide, reads_leave_state_unchanged exampleMemory exampleReceiver exampleWrapped
    (by decide) _⟩

/-- C12, counterexample: with 64-bit `int` arithmetic, `NewItemsSince` on a fresh buffer of
capacity `2^62` (element type `struct{}`), given the checkpoint of a buffer of capacity 1 that
received two pushes, returns `-2^63`.  The product `cp.rotation * S = 2 * 2^62` wraps, the guard
`checkpointAbs > currentAbs` does not fire, and the result is negative. -/
theorem newItemsSince64_negative :
    ∃ (b0 c0 c : RVBuffer Unit),
      NewBuffer 4611686018427387904 = some b0 ∧
      NewBuffer 1 = some c0 ∧ runOps c0 [Op.pushMany [(), ()]] = some c ∧
      GetCheckpoint c = { rotation := 2, pos := 0 } ∧
      NewItemsSince64 b0 (GetCheckpoint c) = -9223372036854775808 ∧
      NewItemsSince64 b0 (GetCheckpoint c) < 0 :=
  ⟨_, _, _, rfl, rfl, rfl, rfl, by decide, by decide⟩

/-- C12, amended: for every buffer state and every checkpoint for which `currentRotation*S`,
`currentAbs = currentRotation*S + currentPos`, `cp.rotation*S`,
`checkpointAbs = cp.rotation*S + cp.pos` and `currentAbs - checkpointAbs` are representable as
64-bit `int`, `NewItemsSince(cp)` (in 64-bit arithmetic) returns
`max(0, currentAbs - checkpointAbs)`: 0 whenever the checkpoint is ahead, never negative. -/
theorem newItemsSince64_clamped (b : RVBuffer E) (checkpoint : Checkpoint)
    (h1 : fitsInt64 (b.currentRotation * b.size))
    (h2 : fitsInt64 (b.currentRotation * b.size + b.currentPos))
    (h3 : fitsInt64 (checkpoint.rotation * b.size))
    (h4 : fitsInt64 (checkpoint.rotation * b.size + checkpoint.pos))
    (h5 : fitsInt64 (b.currentRotation * b.size + b.currentPos -
      (checkpoint.rotation * b.size + checkpoint.pos))) :
    NewItemsSince64 b checkpoint =
        max 0 (b.currentRotation * b.size + b.currentPos -
          (checkpoint.rotation * b.size + checkpoint.pos)) ∧
      (checkpoint.rotation * b.size + checkpoint.pos >
          b.currentRotation * b.size + b.currentPos →
        NewItemsSince64 b checkpoint = 0) ∧
      0 ≤ NewItemsSince64 b checkpoint := by
  rw [newItemsSince64_eq b checkpoint h1 h2 h3 h4 h5]
  simp only [NewItemsSince]
  refine ⟨?_, ?_, ?_⟩
  · split <;> omega
  · intro h
    rw [if_pos h]
  · split <;> omega

/-- C12, amended, instance: a checkpoint ahead of a buffer of capacity 3 that holds five
pushes. -/
theorem newItemsSince64_clamped_witness :
    fitsInt64 (exampleWrapped.currentRotation * exampleWrapped.size) ∧
    fitsInt64 (exampleWrapped.currentRotation * exampleWrapped.size +
      exampleWrapped.currentPos) ∧
    fitsInt64 (({ rotation := 7, pos := 1 } : Checkpoint).rotation * exampleWrapped.size) ∧
    fitsInt64 (({ rotation := 7, pos := 1 } : Checkpoint).rotation * exampleWrapped.size +
      ({ rotation := 7, pos := 1 } : Checkpoint).pos) ∧
    fitsInt64 (exampleWrapped.currentRotation * exampleWrapped.size +
      exampleWrapped.currentPos -
        (({ rotation := 7, pos := 1 } : Checkpoint).rotation * exampleWrapped.size +
          ({ rotation := 7, pos := 1 } : Checkpoint).pos)) ∧
    (NewItemsSince64 exampleWrapped { rotation := 7, pos := 1 } =
        max 0 (exampleWrapped.currentRotation * exampleWrapped.size +
          exampleWrapped.currentPos -
            (({ rotation := 7, pos := 1 } : Checkpoint).rotation * exampleWrapped.size +
              ({ rotation := 7, pos := 1 } : Checkpoint).pos)) ∧
      (({ rotation := 7, pos := 1 } : Checkpoint).rotation * exampleWrapped.size +
          ({ rotation := 7, pos := 1 } : Checkpoint).pos >
          exampleWrapped.currentRotation * exampleWrapped.size + exampleWrapped.currentPos →
        NewItemsSince64 exampleWrapped { rotation := 7, pos := 1 } = 0) ∧
      0 ≤ NewItemsSince64 exampleWrapped { rotation := 7, pos := 1 }) :=
  ⟨by unfold fitsInt64; decide, by unfold fitsInt64; decide, by unfold fitsInt64; decide,
   by unfold fitsInt64; decide, by unfold fitsInt64; decide,
   newItemsSince64_clamped exampleWrapped { rotation := 7, pos := 1 }
     (by unfold fitsInt64; decide) (by unfold fitsInt64; decide) (by unfold fitsInt64; decide)
     (by unfold fitsInt64; decide) (by unfold fitsInt64; decide)⟩

/-- C13, the code at a failing input: a buffer of capacity 4 holding `[1,2]` is read through the
checkpoint of another buffer of capacity 4 that received three pushes.  The checkpoint is ahead
of the buffer, the read does not fault, and it returns three elements, the first of them the
zero value of a slot that was never written. -/
theorem readNewFromCheckpoint_ahead_not_empty :
    ∃ (a0 a c0 c : RVBuffer Int),
      NewBuffer 4 = some a0 ∧ runOps a0 [Op.pushMany [1, 2]] = some a ∧
      NewBuffer 4 = some c0 ∧ runOps c0 [Op.pushMany [7, 8, 9]] = some c ∧
      (GetCheckpoint c).rotation * a.size + (GetCheckpoint c).pos >
        a.currentRotation * a.size + a.currentPos ∧
      NewItemsSince a (GetCheckpoint c) = 0 ∧
      ReadNewFromCheckpoint a (GetCheckpoint c) 0 4 =
        some ([0, 2, 1], { Reused := 0, Max := 3 }) :=
  ⟨_, _, _, _, rfl, rfl, rfl, rfl, by decide, by decide, by decide⟩

/-- C14, counterexample: `NewBuffer(0)` returns a buffer, and `Push` on that buffer faults. -/
theorem newBuffer_zero_not_rejected :
    ∃ b0 : RVBuffer Int, NewBuffer 0 = some b0 ∧ Push b0 1 = none :=
  ⟨_, rfl, by decide⟩

/-- C14, amended: `NewBuffer(size)` does not validate `size`.  For `size < 0` it fails at
construction (the allocation faults); for `size = 0` it returns a buffer of capacity 0 on which
every `Push` faults. -/
theorem newBuffer_nonpositive [Inhabited E] (size : Int) (hsize : size ≤ 0) :
    (size < 0 → NewBuffer (E := E) size = none) ∧
    (size = 0 → ∃ b0 : RVBuffer E, NewBuffer size = some b0 ∧ b0.size = 0 ∧
      b0.buffer = [] ∧ ∀ x, Push b0 x = none) := by
  constructor
  · intro h
    simp [NewBuffer, makeSlice, h]
  · intro h
    subst h
    refine ⟨{ buffer := [], size := 0, currentPos := 0, currentSize := 0,
              currentRotation := 0 }, ?_, rfl, rfl, ?_⟩
    · simp [NewBuffer, makeSlice]
    · intro x
      simp [Push, sliceSet]

/-- C14, amended, instance: size `-2`. -/
theorem newBuffer_nonpositive_witness :
    (-2 : Int) ≤ 0 ∧
    (((-2 : Int) < 0 → NewBuffer (E := Int) (-2) = none) ∧
     ((-2 : Int) = 0 → ∃ b0 : RVBuffer Int, NewBuffer (-2) = some b0 ∧ b0.size = 0 ∧
        b0.buffer = [] ∧ ∀ x, Push b0 x = none)) :=
  ⟨by decide, newBuffer_nonpositive (-2) (by decide)⟩

/-- C15: on every state reached from `NewBuffer(S)`, `S > 0`, by pushes, with every `n ≥ 0`,
every `skip ≥ 0` and every checkpoint taken from the buffer at an earlier moment, `ReadNew(n)`,
`ReadOld(n)` and `ReadNewFromCheckpoint(cp, skip, n)` return: no index is out of range and no
remainder is taken by zero. -/
theorem reads_do_not_fault [Inhabited E] (S : Nat) (hS : 0 < S) (ops1 ops2 : List (Op E))
    (skip n : Nat) :
    ∃ (b0 b1 b2 : RVBuffer E) (outNew outOld : List E) (r : List E × Missing),
      NewBuffer (S : Int) = some b0 ∧ runOps b0 ops1 = some b1 ∧ runOps b1 ops2 = some b2 ∧
      ReadNew b2 n = some outNew ∧ ReadOld b2 n = some outOld ∧
      ReadNewFromCheckpoint b2 (GetCheckpoint b1) skip n = some r := by
  obtain ⟨b0, b1, b2, h0, h1, h2, ht1, ht2⟩ := reach_tracks_two hS ops1 ops2
  exact ⟨b0, b1, b2, _, _, _, h0, h1, h2, readNew_tracks ht2 n, readOld_tracks ht2 n,
    readNewFromCheckpoint_tracks hS ht1 ht2 (by simp) skip n⟩

/-- C15, instance: an empty buffer of capacity 2 (`currentSize == 0`), read with `n = 5` and
`skip = 7`. -/
theorem reads_do_not_fault_witness :
    0 < 2 ∧
    ∃ (b0 b1 b2 : RVBuffer Int) (outNew outOld : List Int) (r : List Int × Missing),
      NewBuffer ((2 : Nat) : Int) = some b0 ∧ runOps b0 [] = some b1 ∧ runOps b1 [] = some b2 ∧
      ReadNew b2 (5 : Nat) = some outNew ∧ ReadOld b2 (5 : Nat) = some outOld ∧
      ReadNewFromCheckpoint b2 (GetCheckpoint b1) (7 : Nat) (5 : Nat) = some r :=
  ⟨by decide, reads_do_not_fault 2 (by decide) _ _ 7 5⟩

/-- C16, counterexample: on the state reached by pushing `1..5` into a buffer of capacity 3, a
negative `n` makes `ReadNew`, `ReadOld` and `ReadNewFromCheckpoint` fault, and
`ReadNewFromCheckpoint` with `skip = -1` differs from the read with `skip = 0`. -/
theorem negative_arguments_not_clamped :
    ∃ (b0 b : RVBuffer Int),
      NewBuffer 3 = some b0 ∧ runOps b0 [Op.pushMany [1, 2, 3, 4, 5]] = some b ∧
      ReadNew b (-1) = none ∧ ReadOld b (-1) = none ∧
      ReadNewFromCheckpoint b (GetCheckpoint b) 0 (-1) = none ∧
      ReadNewFromCheckpoint b (GetCheckpoint b) (-1) 2 = some ([3, 5], { Reused := 0, Max := 2 }) ∧
      ReadNewFromCheckpoint b (GetCheckpoint b) (max 0 (-1)) (max 0 2) =
        some ([5, 4], { Reused := 0, Max := 2 }) :=
  ⟨_, _, rfl, rfl, by decide, by decide, by decide, by decide, by decide⟩

/-- C16, amended: negative arguments are not clamped to zero.  For every buffer state, every
checkpoint and every `skip`, a call with `n < 0` of `ReadNew(n)`, `ReadOld(n)` or
`ReadNewFromCheckpoint(cp, skip, n)` faults (in `make`) instead of returning an empty sequence;
and a negative `skip` is not read as `skip = 0`: with capacity 3 after the pushes `1..5` and the
buffer's own checkpoint, `skip = -1`, `n = 2` does not return what `skip = 0`, `n = 2` returns. -/
theorem negative_count_faults [Inhabited E] (b : RVBuffer E) (checkpoint : Checkpoint)
    (skip n : Int) (hn : n < 0) :
    (ReadNew b n = none ∧ ReadOld b n = none ∧
      ReadNewFromCheckpoint b checkpoint skip n = none) ∧
    ∃ (a0 a : RVBuffer Int),
      NewBuffer 3 = some a0 ∧ runOps a0 [Op.pushMany [1, 2, 3, 4, 5]] = some a ∧
      ReadNewFromCheckpoint a (GetCheckpoint a) (-1) 2 ≠
        ReadNewFromCheckpoint a (GetCheckpoint a) 0 2 := by
  constructor
  · have hm : min n b.currentSize < 0 := by omega
    refine ⟨?_, ?_, ?_⟩
    · simp [ReadNew, makeSlice, hm]
    · simp [ReadOld, makeSlice, hm]
    · have hi : min n (max 0
          ((if checkpoint.rotation = 0 then checkpoint.pos else b.size) - skip)) < 0 := by omega
      unfold ReadNewFromCheckpoint
      simp only [if_pos hi]
  · exact ⟨_, _, rfl, rfl, by decide⟩

/-- C16, amended, instance: `n = -1` on a full buffer of capacity 3. -/
theorem negative_count_faults_witness :
    (-1 : Int) < 0 ∧
    ((ReadNew exampleWrapped (-1) = none ∧ ReadOld exampleWrapped (-1) = none ∧
      ReadNewFromCheckpoint exampleWrapped { rotation := 1, pos := 2 } 0 (-1) = none) ∧
    ∃ (a0 a : RVBuffer Int),
      NewBuffer 3 = some a0 ∧ runOps a0 [Op.pushMany [1, 2, 3, 4, 5]] = some a ∧
      ReadNewFromCheckpoint a (GetCheckpoint a) (-1) 2 ≠
        ReadNewFromCheckpoint a (GetCheckpoint a) 0 2) :=
  ⟨by decide, negative_count_faults exampleWrapped { rotation := 1, pos := 2 } 0 (-1) (by decide)⟩

/-- C17, counterexample: the scenario does not return `Missing{Reused: 3, Max: 3}`. -/
theorem checkpointScenario_not_three :
    checkpointScenario ≠ some (([], { Reused := 3, Max := 3 }), 5) := by
  decide

/-- C17, amended: in a buffer of capacity 4, after pushing `[1,2]`, taking a checkpoint and
pushing `[4,5,6,7,8]`, `ReadNewFromCheckpoint(checkpoint, 0, 4)` returns the empty sequence with
`Missing{Reused: 2, Max: 2}`, and `NewItemsSince(checkpoint) == 5`. -/
theorem checkpointScenario_eq :
    checkpointScenario = some (([], { Reused := 2, Max := 2 }), 5) := by
  decide

/-- C18: on every state reached from `NewBuffer(S)`, `S > 0`, with `old = ReadOld(S)` before
`Push(x)`, `ReadOld(S)` after the push is `old ++ [x]` when `len(old) < S` and `old` without its
first element followed by `x` when `len(old) == S`. -/
theorem push_evicts_oldest_when_full [Inhabited E] (S : Nat) (hS : 0 < S) (ops : List (Op E))
    (x : E) :
    ∃ (b0 b b2 : RVBuffer E) (old new : List E),
      NewBuffer (S : Int) = some b0 ∧ runOps b0 ops = some b ∧
      ReadOld b S = some old ∧ Push b x = some b2 ∧ ReadOld b2 S = some new ∧
      old.length ≤ S ∧
      (old.length < S → new = old ++ [x]) ∧
      (old.length = S → new = old.tail ++ [x]) := by
  obtain ⟨b0, b, h0, h1, ht⟩ := reach_tracks hS ops
  obtain ⟨b2, h2, ht2⟩ := push_tracks hS ht x
  have hold := readOld_tracks ht S
  have hnew := readOld_tracks ht2 S
  rw [oldest_eq_drop_take _ _ _ (by omega)] at hold
  rw [oldest_eq_drop_take _ _ _ (by omega)] at hnew
  have hlen : (((pushedItems ops).drop
      ((pushedItems ops).length - min (pushedItems ops).length S)).take
        (min S (min (pushedItems ops).length S))).length = min (pushedItems ops).length S := by
    rw [List.length_take, List.length_drop]
    omega
  refine ⟨b0, b, b2, _, _, h0, h1, hold, h2, hnew, by rw [hlen]; omega, ?_, ?_⟩
  · intro hl
    rw [hlen] at hl
    have hk : (pushedItems ops).length < S := by omega
    have e1 : min (pushedItems ops).length S = (pushedItems ops).length := by omega
    have e2 : min (pushedItems ops ++ [x]).length S = (pushedItems ops ++ [x]).length := by
      rw [List.length_append, List.length_singleton]
      omega
    have ho : ((pushedItems ops).drop
        ((pushedItems ops).length - min (pushedItems ops).length S)).take
          (min S (min (pushedItems ops).length S)) = pushedItems ops := by
      rw [e1, Nat.sub_self, List.drop_zero]
      exact List.take_of_length_le (by omega)
    have hn : ((pushedItems ops ++ [x]).drop
        ((pushedItems ops ++ [x]).length - min (pushedItems ops ++ [x]).length S)).take
          (min S (min (pushedItems ops ++ [x]).length S)) = pushedItems ops ++ [x] := by
      rw [e2, Nat.sub_self, List.drop_zero]
      exact List.take_of_length_le (by
        rw [List.length_append, List.length_singleton]
        omega)
    rw [ho, hn]
  · intro hl
    rw [hlen] at hl
    have hk : S ≤ (pushedItems ops).length := by omega
    have e1 : min (pushedItems ops).length S = S := by omega
    have e2 : min (pushedItems ops ++ [x]).length S = S := by
      rw [List.length_append, List.length_singleton]
      omega
    have e3 : (pushedItems ops ++ [x]).length - S = (pushedItems ops).length - S + 1 := by
      rw [List.length_append, List.length_singleton]
      omega
    have ho : ((pushedItems ops).drop
        ((pushedItems ops).length - min (pushedItems ops).length S)).take
          (min S (min (pushedItems ops).length S)) =
        (pushedItems ops).drop ((pushedItems ops).length - S) := by
      rw [e1, Nat.min_self]
      exact List.take_of_length_le (by rw [List.length_drop]; omega)
    have hn : ((pushedItems ops ++ [x]).drop
        ((pushedItems ops ++ [x]).length - min (pushedItems ops ++ [x]).length S)).take
          (min S (min (pushedItems ops ++ [x]).length S)) =
        (pushedItems ops).drop ((pushedItems ops).length - S + 1) ++ [x] := by
      rw [e2, Nat.min_self, e3, List.drop_append_of_le_length (by omega)]
      exact List.take_of_length_le (by
        rw [List.length_append, List.length_drop, List.length_singleton]
        omega)
    rw [ho, hn, List.tail_drop]

/-- C18, instance: capacity 3, full after `1, 2, 3, 4`, then `Push(9)`. -/
theorem push_evicts_oldest_when_full_witness :
    0 < 3 ∧
    ∃ (b0 b b2 : RVBuffer Int) (old new : List Int),
      NewBuffer ((3 : Nat) : Int) = some b0 ∧
      runOps b0 [Op.pushMany [1, 2, 3], Op.push 4] = some b ∧
      ReadOld b (3 : Nat) = some old ∧ Push b 9 = some b2 ∧ ReadOld b2 (3 : Nat) = some new ∧
      old.length ≤ 3 ∧
      (old.length < 3 → new = old ++ [9]) ∧
      (old.length = 3 → new = old.tail ++ [9]) :=
  ⟨by decide, push_evicts_oldest_when_full 3 (by decide) _ 9⟩

/-- C19: every state reached from `NewBuffer(S)`, `S > 0`, by `Push` and `PushMany` has
`0 ≤ currentPos < S`, `0 ≤ currentSize ≤ S`, `len(buffer) == S`, `currentSize == currentPos` when
`currentRotation == 0` and `currentSize == S` when `currentRotation ≥ 1`; so the
`availableAtCheckpoint` value of a checkpoint taken there is `GetCurrentSIze()` at that moment,
and after exactly `S` pushes the state has rotation 1, position 0 and size `S`. -/
theorem reached_state_invariant [Inhabited E] (S : Nat) (hS : 0 < S) (ops : List (Op E)) :
    ∃ (b0 b : RVBuffer E),
      NewBuffer (S : Int) = some b0 ∧ runOps b0 ops = some b ∧
      b.size = (S : Int) ∧
      0 ≤ b.currentPos ∧ b.currentPos < (S : Int) ∧
      0 ≤ b.currentSize ∧ b.currentSize ≤ (S : Int) ∧
      b.buffer.length = S ∧
      (b.currentRotation = 0 → b.currentSize = b.currentPos) ∧
      (1 ≤ b.currentRotation → b.currentSize = (S : Int)) ∧
      (if (GetCheckpoint b).rotation = 0 then (GetCheckpoint b).pos else b.size) =
        GetCurrentSIze b ∧
      ((pushedItems ops).length = S →
        b.currentRotation = 1 ∧ b.currentPos = 0 ∧ b.currentSize = (S : Int)) := by
  obtain ⟨b0, b, h0, h1, ht⟩ := reach_tracks hS ops
  have hv := tracks_valid hS ht
  have hav := available_at_checkpoint hS ht
  obtain ⟨hs, hlen, hp0, hp1, hc0, hc1, hr0, hz, hnz⟩ := hv
  have hsz := ht.size_eq
  refine ⟨b0, b, h0, h1, hsz, hp0, by omega, hc0, by omega, ht.len_eq, hz, ?_, ?_, ?_⟩
  · intro h
    rw [hnz h, hsz]
  · rw [hsz, hav, GetCurrentSIze, ht.csize_eq]
    omega
  · intro hk
    rw [ht.rot_eq, ht.pos_eq, ht.csize_eq, hk, Nat.div_self hS, Nat.mod_self, Nat.min_self]
    exact ⟨rfl, rfl, rfl⟩

/-- C19, instance: capacity 3 after exactly three pushes. -/
theorem reached_state_invariant_witness :
    0 < 3 ∧
    ∃ (b0 b : RVBuffer Int),
      NewBuffer ((3 : Nat) : Int) = some b0 ∧
      runOps b0 [Op.push 1, Op.pushMany [2, 3]] = some b ∧
      b.size = ((3 : Nat) : Int) ∧
      0 ≤ b.currentPos ∧ b.currentPos < ((3 : Nat) : Int) ∧
      0 ≤ b.currentSize ∧ b.currentSize ≤ ((3 : Nat) : Int) ∧
      b.buffer.length = 3 ∧
      (b.currentRotation = 0 → b.currentSize = b.currentPos) ∧
      (1 ≤ b.currentRotation → b.currentSize = ((3 : Nat) : Int)) ∧
      (if (GetCheckpoint b).rotation = 0 then (GetCheckpoint b).pos else b.size) =
        GetCurrentSIze b ∧
      ((pushedItems [Op.push (1 : Int), Op.pushMany [2, 3]]).length = 3 →
        b.currentRotation = 1 ∧ b.currentPos = 0 ∧ b.currentSize = ((3 : Nat) : Int)) :=
  ⟨by decide, reached_state_invariant 3 (by decide) _⟩

/-- C20: on every state reached from `NewBuffer(S)`, `S > 0`, and for every `n ≥ 0`, reading
from a checkpoint taken right now agrees with the plain newest-first read:
`ReadNewFromCheckpoint(GetCheckpoint(), 0, n)` is
`(ReadNew(n), Missing{Reused: 0, Max: min(n, currentSize)})`. -/
theorem readNewFromCheckpoint_now_eq_readNew [Inhabited E] (S : Nat) (hS : 0 < S)
    (ops : List (Op E)) (n : Nat) :
    ∃ (b0 b : RVBuffer E) (out : List E),
      NewBuffer (S : Int) = some b0 ∧ runOps b0 ops = some b ∧
      ReadNew b n = some out ∧
      ReadNewFromCheckpoint b (GetCheckpoint b) 0 n =
        some (out, { Reused := 0, Max := min (n : Int) (GetCurrentSIze b) }) := by
  obtain ⟨b0, b, h0, h1, ht⟩ := reach_tracks hS ops
  have hnew := readNew_tracks ht n
  have hcp := readNewFromCheckpoint_tracks hS ht ht (le_refl _) 0 n
  have hM : specMax S (pushedItems ops).length ((0 : Nat) : Int) n =
      ((min n (min (pushedItems ops).length S) : Nat) : Int) := by
    unfold specMax
    omega
  have hall : ∀ i ∈ List.range (min n (min (pushedItems ops).length S)),
      specOldest S (pushedItems ops).length ≤
        ((pushedItems ops).length : Int) - 1 - ((0 : Nat) : Int) - (i : Int) := by
    intro i hi
    rw [List.mem_range] at hi
    unfold specOldest
    omega
  rw [hM, Int.toNat_ofNat] at hcp
  rw [List.filter_eq_self.2 (fun i hi => decide_eq_true (hall i hi)),
    List.filter_eq_nil_iff.2 (fun i hi => by
      have := hall i hi
      simp only [decide_eq_true_eq]
      omega)] at hcp
  refine ⟨b0, b, _, h0, h1, hnew, ?_⟩
  have hmax : min (n : Int) (GetCurrentSIze b) =
      ((min n (min (pushedItems ops).length S) : Nat) : Int) := by
    rw [GetCurrentSIze, ht.csize_eq]
    omega
  have hmap : ((List.range (min n (min (pushedItems ops).length S))).map fun (i : Nat) =>
        (pushedItems ops).getD
          (((pushedItems ops).length : Int) - 1 - ((0 : Nat) : Int) - (i : Int)).toNat default) =
      ((List.range (min n (min (pushedItems ops).length S))).map fun (i : Nat) =>
        (pushedItems ops).getD ((pushedItems ops).length - 1 - i) default) := by
    apply List.map_congr_left
    intro i hi
    rw [List.mem_range] at hi
    have e : (((pushedItems ops).length : Int) - 1 - ((0 : Nat) : Int) - (i : Int)).toNat =
        (pushedItems ops).length - 1 - i := by omega
    rw [e]
  rw [hmax, ← hmap]
  simpa using hcp

/-- C20, instance: capacity 3 holding five pushes, `n = 2`. -/
theorem readNewFromCheckpoint_now_eq_readNew_witness :
    0 < 3 ∧
    ∃ (b0 b : RVBuffer Int) (out : List Int),
      NewBuffer ((3 : Nat) : Int) = some b0 ∧
      runOps b0 [Op.pushMany [1, 2, 3, 4], Op.push 5] = some b ∧
      ReadNew b (2 : Nat) = some out ∧
      ReadNewFromCheckpoint b (GetCheckpoint b) 0 (2 : Nat) =
        some (out, { Reused := 0, Max := min ((2 : Nat) : Int) (GetCurrentSIze b) }) :=
  ⟨by decide, readNewFromCheckpoint_now_eq_readNew 3 (by decide) _ 2⟩

/-- C21: pagination composes.  On every state reached from `NewBuffer(S)`, `S > 0`, for every
checkpoint and all `s, a, b ≥ 0`, the reads `(o1, m1) = ReadNewFromCheckpoint(cp, s, a)`,
`(o2, m2) = ReadNewFromCheckpoint(cp, s+a, b)` and `(o, m) = ReadNewFromCheckpoint(cp, s, a+b)`
on that state all return, with `o == o1 ++ o2`, `m.Max == m1.Max + m2.Max` and
`m.Reused == m1.Reused + m2.Reused`. -/
theorem pagination_composes [Inhabited E] (S : Nat) (hS : 0 < S) (ops : List (Op E))
    (checkpoint : Checkpoint) (s a c : Nat) :
    ∃ (b0 b : RVBuffer E) (o1 o2 o : List E) (m1 m2 m : Missing),
      NewBuffer (S : Int) = some b0 ∧ runOps b0 ops = some b ∧
      ReadNewFromCheckpoint b checkpoint s a = some (o1, m1) ∧
      ReadNewFromCheckpoint b checkpoint ((s : Int) + (a : Int)) c = some (o2, m2) ∧
      ReadNewFromCheckpoint b checkpoint s ((a : Int) + (c : Int)) = some (o, m) ∧
      o = o1 ++ o2 ∧ m.Max = m1.Max + m2.Max ∧ m.Reused = m1.Reused + m2.Reused := by
  obtain ⟨b0, b, h0, h1, ht⟩ := reach_tracks hS ops
  have hv := tracks_valid hS ht
  obtain ⟨o1, o2, m1, m2, e1, e2, e3⟩ :=
    pagination_valid hv checkpoint s a c (Int.ofNat_nonneg a) (Int.ofNat_nonneg c)
  exact ⟨b0, b, o1, o2, _, m1, m2, _, h0, h1, e1, e2, e3, rfl, rfl, rfl⟩

/-- C21, instance: capacity 4 holding six pushes, read through the checkpoint taken after the
fifth push, pages `skip 1, n 2` and `skip 3, n 3` against `skip 1, n 5`. -/
theorem pagination_composes_witness :
    0 < 4 ∧
    ∃ (b0 b : RVBuffer Int) (o1 o2 o : List Int) (m1 m2 m : Missing),
      NewBuffer ((4 : Nat) : Int) = some b0 ∧
      runOps b0 [Op.pushMany [1, 2, 3, 4, 5], Op.push 6] = some b ∧
      ReadNewFromCheckpoint b { rotation := 1, pos := 1 } (1 : Nat) (2 : Nat) = some (o1, m1) ∧
      ReadNewFromCheckpoint b { rotation := 1, pos := 1 } (((1 : Nat) : Int) + ((2 : Nat) : Int))
        (3 : Nat) = some (o2, m2) ∧
      ReadNewFromCheckpoint b { rotation := 1, pos := 1 } (1 : Nat)
        (((2 : Nat) : Int) + ((3 : Nat) : Int)) = some (o, m) ∧
      o = o1 ++ o2 ∧ m.Max = m1.Max + m2.Max ∧ m.Reused = m1.Reused + m2.Reused :=
  ⟨by decide, pagination_composes 4 (by decide) _ { rotation := 1, pos := 1 } 1 2 3⟩


end Rvb
